import Mathlib

set_option autoImplicit false

namespace Inselect

/-!
A shallow embedding of `inselect/lib/metadata.py`: the metadata template engine
(template construction, field/record validation, label formatting, and the
document traversal with its visitor protocol), together with proofs about it.

Python dicts with string keys are modelled as association lists with unique
keys; mutation of a dict is modelled by returning the updated list.  Parsers
(opaque callables that raise `ValueError` on failure) are modelled as total
functions `String → Bool`, `true` meaning the parse succeeded.  Fallible
operations return `Except String`.
-/

/-- Python `d.get(k)` on a string-keyed dict: the value of the first binding of
`k`, if any (a real Python dict has at most one binding per key). -/
def dictGet {α : Type} (m : List (String × α)) (k : String) : Option α :=
  (m.find? (fun p => p.1 == k)).map (fun p => p.2)

/-- Python `d[k] = v`: update the binding in place when the key is present,
append a new binding otherwise. -/
def dictInsert {α : Type} (m : List (String × α)) (k : String) (v : α) :
    List (String × α) :=
  if m.any (fun p => p.1 == k) then m.map (fun p => if p.1 == k then (k, v) else p)
  else m ++ [(k, v)]

/-- Python dict construction from a sequence of pairs: keys appear in
first-occurrence order, each bound to its last value in the sequence. -/
def pyDict {α : Type} (l : List (String × α)) : List (String × α) :=
  l.foldl (fun m p => dictInsert m p.1 p.2) []

/-- The value stored under a field's `ChoicesWithData` key: the raw template
spec holds a list of `(label, data)` pairs; `_fields_from_template_spec`
replaces it in place with an `OrderedDict` built from those pairs. -/
inductive CWDRep : Type where
  | asList (pairs : List (String × String))
  | asDict (pairs : List (String × String))
  deriving DecidableEq, Repr

/-- The `(label, data)` pairs underlying either representation. -/
def CWDRep.pairs : CWDRep → List (String × String)
  | .asList ps => ps
  | .asDict ps => ps

/-- `c[label]` / `label in c` on the `OrderedDict` representation (labels are
unique once a template is constructed). -/
def CWDRep.lookup (c : CWDRep) (k : String) : Option String := dictGet c.pairs k

/-- One raw field spec: a Python dict with the optional keys `Name`,
`Mandatory`, `Choices`, `ChoicesWithData` and `Parser` (a parser is modelled as
`String → Bool`, `true` meaning the value parses). -/
structure FieldSpec : Type where
  Name : Option String := none
  Mandatory : Bool := false
  Choices : Option (List String) := none
  ChoicesWithData : Option CWDRep := none
  Parser : Option (String → Bool) := none

/-- Modelled from the spec: `duplicated` from `inselect/lib/utils.py` (that
module is not among the sources).  Per the spec's uniqueness invariants it
returns the values occurring more than once in its argument, each once; only
its emptiness and its sorted listing are ever used. -/
def duplicated (xs : List String) : List String :=
  (xs.filter (fun x => 1 < xs.count x)).dedup

/-- Insert a string into an already sorted list of strings. -/
def insertSorted (x : String) : List String → List String
  | [] => [x]
  | y :: ys => if x ≤ y then x :: y :: ys else y :: insertSorted x ys

/-- Python `sorted` on a list of strings. -/
def sortStrings (xs : List String) : List String := xs.foldr insertSorted []

/-- The rendering of a list of labels inside an error message (Python prints
the sorted list; only which names appear in the message matters). -/
def joinComma : List String → String
  | [] => ""
  | [x] => x
  | x :: rest => x ++ ", " ++ joinComma rest

/-- The `Validate Choices` loop of `_fields_from_template_spec`: for each field
carrying `Choices`, in order, fail on duplicated labels, then on emptiness. -/
def checkChoices : List FieldSpec → Except String Unit
  | [] => .ok ()
  | f :: rest =>
    match f.Choices with
    | none => checkChoices rest
    | some cs =>
      if duplicated cs ≠ [] then
        .error ("Duplicated \"Choices\" label for [" ++ f.Name.getD "" ++ "]: "
          ++ joinComma (sortStrings (duplicated cs)))
      else if cs.isEmpty then
        .error ("Empty \"Choices\" for [" ++ f.Name.getD "" ++ "]")
      else checkChoices rest

/-- The `Validate ChoicesWithData` loop of `_fields_from_template_spec`: for
each field carrying `ChoicesWithData`, in order, fail when the synthesized
`<name>-value` name is already declared, then on duplicated labels, then on
emptiness. -/
def checkCWD (field_names : List String) : List FieldSpec → Except String Unit
  | [] => .ok ()
  | f :: rest =>
    match f.ChoicesWithData with
    | none => checkCWD field_names rest
    | some c =>
      let value_field := f.Name.getD "" ++ "-value"
      if field_names.contains value_field then
        .error ("A field named \"" ++ value_field ++ "\" cannot be defined")
      else if duplicated (c.pairs.map (fun p => p.1)) ≠ [] then
        .error ("Duplicated \"ChoicesWithData\" label for [" ++ f.Name.getD "" ++ "]: "
          ++ joinComma (sortStrings (duplicated (c.pairs.map (fun p => p.1)))))
      else if c.pairs.isEmpty then
        .error ("Empty \"ChoicesWithData\" for [" ++ f.Name.getD "" ++ "]")
      else checkCWD field_names rest

/-- `field['ChoicesWithData'] = OrderedDict(field['ChoicesWithData'])`: at this
point labels are unique, so the `OrderedDict` holds the same pairs in the same
order. -/
def convertCWD (f : FieldSpec) : FieldSpec :=
  match f.ChoicesWithData with
  | some c => { f with ChoicesWithData := some (CWDRep.asDict c.pairs) }
  | none => f

/-- `_fields_from_template_spec`: validates the raw field specs and returns the
processed fields; the final loop mutates each `ChoicesWithData` value in place
into an `OrderedDict` (the field dicts are aliased by the caller's spec). -/
def _fields_from_template_spec (fields : List FieldSpec) :
    Except String (List FieldSpec) :=
  if fields.any (fun f => f.Name.isNone) then
    .error "One or more fields do not have a name"
  else if duplicated (fields.filterMap (fun f => f.Name)) ≠ [] then
    .error ("Duplicated fields "
      ++ joinComma (sortStrings (duplicated (fields.filterMap (fun f => f.Name)))))
  else
    match fields.find? (fun f => f.Choices.isSome && f.ChoicesWithData.isSome) with
    | some bad =>
      .error ("Both \"Choices\" and \"ChoicesWithData\" given for for ["
        ++ bad.Name.getD "" ++ "]")
    | none =>
      match checkChoices fields with
      | .error e => .error e
      | .ok () =>
        match checkCWD (fields.filterMap (fun f => f.Name)) fields with
        | .error e => .error e
        | .ok () => .ok (fields.map convertCWD)

/-- The raw template spec handed to `MetadataTemplate.__init__`: a dict with
keys `Name`, `Object label`, `Cropped file suffix` and `Fields`.  A missing or
empty `Name` are both falsy in the source, so both are modelled as `""`. -/
structure TemplateSpec : Type where
  Name : String := ""
  ObjectLabel : Option String := none
  CroppedFileSuffix : Option String := none
  Fields : List FieldSpec := []

/-- `Path('x').with_suffix(s)` succeeds iff `s` holds no path separator and is
either empty or starts with a dot without being just a dot; the stored suffix
is then `s` itself. -/
def valid_cropped_suffix (s : String) : Bool :=
  !(s.contains '/') && (s.isEmpty || (s.startsWith "." && s != "."))

/-- The compiled template: the state `MetadataTemplate.__init__` stores.  The
derived dicts (`_fields_mapping`, `_parse_mapping`, ...) are recomputed from
`_fields` on demand below, exactly as `__init__` builds them. -/
structure MetadataTemplate : Type where
  _name : String
  _cropped_image_suffix : Option String
  _fields : List FieldSpec
  _object_label : String

/-- `MetadataTemplate.__init__`: field validation first (which mutates the
caller's field dicts on success), then the template-name check, then the
fields-nonempty check, then the cropped-suffix check. -/
def MetadataTemplate.init (spec : TemplateSpec) : Except String MetadataTemplate :=
  match _fields_from_template_spec spec.Fields with
  | .error e => .error e
  | .ok fields =>
    if spec.Name = "" then .error "No template name"
    else if fields.isEmpty then .error "No fields"
    else
      match spec.CroppedFileSuffix with
      | some s =>
        if valid_cropped_suffix s then
          .ok { _name := spec.Name, _cropped_image_suffix := some s,
                _fields := fields,
                _object_label := spec.ObjectLabel.getD "\x7bcatalogNumber\x7d" }
        else .error ("Invalid cropped file suffix [" ++ s ++ "]")
      | none =>
        .ok { _name := spec.Name, _cropped_image_suffix := none,
              _fields := fields,
              _object_label := spec.ObjectLabel.getD "\x7bcatalogNumber\x7d" }

/-- The caller's `spec['Fields']` after a call to `MetadataTemplate.init`: the
field dicts are aliased, and `_fields_from_template_spec` mutates them in place
(each `ChoicesWithData` list becomes an `OrderedDict`) after its checks pass
and before `init`'s own later checks run — so the mutation persists even when
construction subsequently fails. -/
def spec_fields_after_init (spec : TemplateSpec) : List FieldSpec :=
  match _fields_from_template_spec spec.Fields with
  | .ok fs => fs
  | .error _ => spec.Fields

/-- `self._fields_mapping = {f['Name']: f for f in fields}`. -/
def MetadataTemplate.fields_mapping (t : MetadataTemplate) :
    List (String × FieldSpec) :=
  pyDict (t._fields.filterMap (fun f => f.Name.map (fun n => (n, f))))

/-- `self._choices_with_data_mapping = {f['Name']: f for f in fields if 'ChoicesWithData' in f}`. -/
def MetadataTemplate.choices_with_data_mapping (t : MetadataTemplate) :
    List (String × FieldSpec) :=
  pyDict (t._fields.filterMap (fun f =>
    if f.ChoicesWithData.isSome then f.Name.map (fun n => (n, f)) else none))

/-- `self._parse_mapping = {k: v['Parser'] for k, v in self._fields_mapping.iteritems() if 'Parser' in v}`
(its keys are unique because `_fields_mapping`'s are). -/
def MetadataTemplate.parse_mapping (t : MetadataTemplate) :
    List (String × (String → Bool)) :=
  t.fields_mapping.filterMap (fun p => p.2.Parser.map (fun pr => (p.1, pr)))

/-- `self._mandatory = [f['Name'] for f in self._fields if f.get('Mandatory')]`
(on templates built by `init` every field has a name). -/
def MetadataTemplate.mandatory (t : MetadataTemplate) : List String :=
  (t._fields.filter (fun f => f.Mandatory)).filterMap (fun f => f.Name)

/-- Python truthiness of `md.get(k)`: `None` and the empty string are falsy. -/
def falsy : Option String → Bool
  | none => true
  | some s => s.isEmpty

/-- A record ("box"); the engine reads and writes `box['fields']`, a
string-to-string dict owned by the caller. -/
structure Box : Type where
  fields : List (String × String)
  deriving DecidableEq, Repr

/-- The `(key, value)` pair that `box_metadata` writes for one
`ChoicesWithData` field, when its raw value in `md` matches a vocabulary label:
key `<name>-value`, value the associated data; `none` when there is no match or
the field is not a `ChoicesWithData` field. -/
def fieldDerived (md : List (String × String)) (f : FieldSpec) :
    Option (String × String) :=
  match f.Name, f.ChoicesWithData with
  | some n, some c =>
    match dictGet md n with
    | some v => (c.lookup v).map (fun d => (n ++ "-value", d))
    | none => none
  | _, _ => none

/-- `box_metadata`: `md = box['fields']` (an alias, so the writes below mutate
the caller's box); for each field of `_choices_with_data_mapping` whose raw
value matches a vocabulary label, write the `<name>-value` entry into `md`, and
return `md`.  Python iterates the dict's values in an unspecified order; this
embedding iterates them in insertion order (each iteration writes a distinct
derived key, which on templates built by `init` is never read back by another
iteration). -/
def MetadataTemplate.box_metadata (t : MetadataTemplate) (box : Box) :
    List (String × String) :=
  (t.choices_with_data_mapping.map (fun p => p.2)).foldl
    (fun md f =>
      match fieldDerived md f with
      | some kv => dictInsert md kv.1 kv.2
      | none => md)
    box.fields

/-- The caller's box after a call to `box_metadata`: `md` aliases
`box['fields']`, so the box now holds the returned mapping. -/
def box_after_box_metadata (t : MetadataTemplate) (box : Box) : Box :=
  { fields := t.box_metadata box }

/-- Modelled from the spec: `FormatDefault(default='').format` from
`inselect/lib/utils.py` (that module is not among the sources).  Substitutes
each placeholder — a field name written between braces — by its value in `md`;
a placeholder absent from `md` substitutes the empty string, never an error.
The recursion is fuelled to stay structural; every step consumes at least one
character, so fuel equal to the character count never runs out. -/
def formatDefaultGo (md : List (String × String)) : Nat → List Char → List Char
  | 0, _ => []
  | _ + 1, [] => []
  | fuel + 1, c :: rest =>
    if c = '\x7b' then
      let name := rest.takeWhile (fun d => !(d = '\x7d'))
      let rest2 := (rest.dropWhile (fun d => !(d = '\x7d'))).drop 1
      ((dictGet md (String.mk name)).getD "").data ++ formatDefaultGo md fuel rest2
    else c :: formatDefaultGo md fuel rest

/-- See `formatDefaultGo`. -/
def formatDefault (fmt : String) (md : List (String × String)) : String :=
  String.mk (formatDefaultGo md fmt.data.length fmt.data)

/-- `format_label`: formats the object-label format string over
`box_metadata(box)` (which mutates the box, see `box_metadata`). -/
def MetadataTemplate.format_label (t : MetadataTemplate) (box : Box) : String :=
  formatDefault t._object_label (t.box_metadata box)

/-- `validate_box`: `False` when some mandatory field is falsy in
`box['fields']`; otherwise parse every field of `_parse_mapping` whose key is
present in `box['fields']`, a parse failure (a `ValueError`, modelled as the
parser returning `false`) being caught and turned into `False`. -/
def MetadataTemplate.validate_box (t : MetadataTemplate) (box : Box) : Bool :=
  if t.mandatory.any (fun f => falsy (dictGet box.fields f)) then false
  else t.parse_mapping.all (fun kp =>
    match dictGet box.fields kp.1 with
    | some v => kp.2 v
    | none => true)

/-- `self._parse_mapping.get(field)`. -/
def MetadataTemplate.parse_for (t : MetadataTemplate) (k : String) :
    Option (String → Bool) :=
  dictGet t.parse_mapping k

/-- `validate_field`: unknown fields pass; a mandatory field with a falsy value
fails; a truthy value of a field with a parser must parse (a `ValueError` being
caught and turned into `False`); everything else passes. -/
def MetadataTemplate.validate_field (t : MetadataTemplate) (field value : String) :
    Bool :=
  if (dictGet t.fields_mapping field).isNone then true
  else if value == "" && t.mandatory.contains field then false
  else if value != "" then
    match t.parse_for field with
    | some parse => parse value
    | none => true
  else true

/-- One callback of the `MetadataVisitor` protocol, as a tagged event. -/
inductive VisitEvent : Type where
  | begin_visit
  | missing_mandatory (index : Nat) (label : String) (field : String)
  | failed_parse (index : Nat) (label : String) (field : String)
  | missing_label (index : Nat)
  | duplicated_labels (label : String)
  | end_visit
  deriving DecidableEq, Repr

/-- `_visit_box(visitor, index, box)`: compute the box's label (mutating the
box, see `box_metadata`), re-read `md = box['fields']` (now the mutated
mapping), report `missing_mandatory` for each falsy mandatory field in
`self.mandatory` order, then report `failed_parse` for each field of
`_parse_mapping` present in `md` whose parse raises.  Python iterates
`_parse_mapping` in the dict's unspecified order; `parseOrder` makes that order
an explicit parameter (the list of the dict's keys in iteration order). -/
def MetadataTemplate.visit_box_events (t : MetadataTemplate)
    (parseOrder : List String) (index : Nat) (box : Box) : List VisitEvent :=
  let box_label := t.format_label box
  let md := t.box_metadata box
  (t.mandatory.filter (fun f => falsy (dictGet md f))).map
    (fun f => VisitEvent.missing_mandatory index box_label f)
  ++ parseOrder.filterMap (fun k =>
    match t.parse_for k, dictGet md k with
    | some parse, some v =>
      if parse v then none else some (VisitEvent.failed_parse index box_label k)
    | _, _ => none)

/-- `parseOrder` is a genuine iteration order of `_parse_mapping`: a
permutation of its keys. -/
def IsParseOrder (t : MetadataTemplate) (parseOrder : List String) : Prop :=
  parseOrder.Perm (t.parse_mapping.map (fun p => p.1))

/-- `_visit_boxes`: visit each box with its index, in document order; each
visit mutates its box (see `box_metadata`). -/
def MetadataTemplate.visit_boxes_events (t : MetadataTemplate)
    (parseOrder : List String) : Nat → List Box → List VisitEvent
  | _, [] => []
  | i, b :: rest =>
    t.visit_box_events parseOrder i b
      ++ t.visit_boxes_events parseOrder (i + 1) rest

/-- The document's boxes after `_visit_boxes` ran: every box was mutated by the
`format_label` call inside `_visit_box`. -/
def MetadataTemplate.boxes_after_visit (t : MetadataTemplate) (doc : List Box) :
    List Box :=
  doc.map (box_after_box_metadata t)

/-- The `missing_label` loop of `_visit_labels`:
`for index in (i for i, l in izip(count(), labels) if not l)`. -/
def missingLabelEvents : Nat → List String → List VisitEvent
  | _, [] => []
  | i, l :: rest =>
    (if l = "" then [VisitEvent.missing_label i] else [])
      ++ missingLabelEvents (i + 1) rest

/-- The `duplicated_labels` loop of `_visit_labels`:
`for label in (v for v, n in counts.iteritems() if v and n > 1)`.  Python
iterates the `Counter`'s keys in an unspecified order; `counterOrder` makes
that order an explicit parameter (the distinct labels in iteration order). -/
def duplicatedLabelEvents (counterOrder labels : List String) : List VisitEvent :=
  counterOrder.filterMap (fun l =>
    if l ≠ "" ∧ 1 < labels.count l then some (VisitEvent.duplicated_labels l)
    else none)

/-- `counterOrder` is a genuine iteration order of `Counter(labels)`: a
permutation of the distinct labels. -/
def IsCounterOrder (counterOrder labels : List String) : Prop :=
  counterOrder.Perm labels.dedup

/-- `_visit_labels`: compute every box's label (each box was already mutated by
`_visit_boxes`, and is mutated again, idempotently, here), report
`missing_label` for each empty label, then `duplicated_labels` once per
repeated label value that is non-empty. -/
def MetadataTemplate.visit_labels_events (t : MetadataTemplate)
    (counterOrder : List String) (doc : List Box) : List VisitEvent :=
  let labels := doc.map t.format_label
  missingLabelEvents 0 labels ++ duplicatedLabelEvents counterOrder labels

/-- `visit_document`: `begin_visit`, `_visit_boxes` (which mutates the boxes),
`_visit_labels` on the mutated boxes, `end_visit`, as the stream of visitor
callbacks. -/
def MetadataTemplate.visit_document_events (t : MetadataTemplate)
    (parseOrder counterOrder : List String) (doc : List Box) : List VisitEvent :=
  [VisitEvent.begin_visit]
    ++ t.visit_boxes_events parseOrder 0 doc
    ++ t.visit_labels_events counterOrder (t.boxes_after_visit doc)
    ++ [VisitEvent.end_visit]

/-- A Python value as stored in a problem tuple (the buggy construction of
`FailedParse` below puts a string where the claim expects an integer, so the
slots must admit both). -/
inductive PyVal : Type where
  | int (n : Nat)
  | str (s : String)
  deriving DecidableEq, Repr

/-- `MissingMandatory = namedtuple('MissingMandatory', ['index', 'label', 'field'])`. -/
structure MissingMandatory : Type where
  index : PyVal
  label : PyVal
  field : PyVal
  deriving DecidableEq, Repr

/-- `FailedParse = namedtuple('FailedParse', ['index', 'label', 'field'])`. -/
structure FailedParse : Type where
  index : PyVal
  label : PyVal
  field : PyVal
  deriving DecidableEq, Repr

/-- The four accumulator attributes `CollectVisitor.begin_visit` creates. -/
structure ProblemAcc : Type where
  _missing_mandatory : List MissingMandatory
  _failed_parse : List FailedParse
  _missing_label : List Nat
  _duplicated_labels : List String
  deriving DecidableEq, Repr

/-- `ValidationProblems`: the container `CollectVisitor.all_problems` builds. -/
structure ValidationProblems : Type where
  missing_mandatory : List MissingMandatory
  failed_parse : List FailedParse
  missing_label : List Nat
  duplicated_labels : List String
  deriving DecidableEq, Repr

/-- `ValidationProblems.any_problems`. -/
def ValidationProblems.any_problems (v : ValidationProblems) : Bool :=
  !v.missing_mandatory.isEmpty || !v.failed_parse.isEmpty
    || !v.missing_label.isEmpty || !v.duplicated_labels.isEmpty

/-- A `CollectVisitor` instance: a fresh instance has none of the accumulator
attributes (they are only assigned by `begin_visit`), modelled as `none`. -/
structure CollectVisitor : Type where
  acc : Option ProblemAcc
  deriving DecidableEq, Repr

/-- `CollectVisitor()`: the constructor assigns no attributes. -/
def CollectVisitor.new : CollectVisitor := { acc := none }

/-- `CollectVisitor.begin_visit`: (re)creates the four empty accumulators. -/
def CollectVisitor.begin_visit (_v : CollectVisitor) : CollectVisitor :=
  { acc := some { _missing_mandatory := [], _failed_parse := [],
                  _missing_label := [], _duplicated_labels := [] } }

/-- `CollectVisitor.missing_mandatory`: appends
`MissingMandatory(index, label, field)`; touching the accumulator before
`begin_visit` raises `AttributeError`. -/
def CollectVisitor.missing_mandatory (v : CollectVisitor) (index : Nat)
    (label field : String) : Except String CollectVisitor :=
  match v.acc with
  | none => .error "AttributeError: _missing_mandatory"
  | some a => .ok { acc := some { a with _missing_mandatory :=
      a._missing_mandatory
        ++ [{ index := .int index, label := .str label, field := .str field }] } }

/-- `CollectVisitor.failed_parse`: the source appends
`FailedParse(field, index, label)` — the arguments are passed positionally in
that order, so `field` lands in the `index` slot, `index` in the `label` slot
and `label` in the `field` slot. -/
def CollectVisitor.failed_parse (v : CollectVisitor) (index : Nat)
    (label field : String) : Except String CollectVisitor :=
  match v.acc with
  | none => .error "AttributeError: _failed_parse"
  | some a => .ok { acc := some { a with _failed_parse :=
      a._failed_parse
        ++ [{ index := .str field, label := .int index, field := .str label }] } }

/-- `CollectVisitor.missing_label`. -/
def CollectVisitor.missing_label (v : CollectVisitor) (index : Nat) :
    Except String CollectVisitor :=
  match v.acc with
  | none => .error "AttributeError: _missing_label"
  | some a => .ok { acc := some { a with _missing_label :=
      a._missing_label ++ [index] } }

/-- `CollectVisitor.duplicated_labels`. -/
def CollectVisitor.duplicated_labels (v : CollectVisitor) (label : String) :
    Except String CollectVisitor :=
  match v.acc with
  | none => .error "AttributeError: _duplicated_labels"
  | some a => .ok { acc := some { a with _duplicated_labels :=
      a._duplicated_labels ++ [label] } }

/-- `CollectVisitor.all_problems`: reads the four accumulator attributes;
before any `begin_visit` they do not exist and Python raises
`AttributeError`. -/
def CollectVisitor.all_problems (v : CollectVisitor) :
    Except String ValidationProblems :=
  match v.acc with
  | none => .error "AttributeError: _missing_mandatory"
  | some a => .ok { missing_mandatory := a._missing_mandatory,
                    failed_parse := a._failed_parse,
                    missing_label := a._missing_label,
                    duplicated_labels := a._duplicated_labels }

/-- Dispatch one traversal event to the corresponding `CollectVisitor`
callback (`end_visit` is inherited from `MetadataVisitor` and does nothing). -/
def CollectVisitor.handle (v : CollectVisitor) (e : VisitEvent) :
    Except String CollectVisitor :=
  match e with
  | .begin_visit => .ok v.begin_visit
  | .missing_mandatory i l f => v.missing_mandatory i l f
  | .failed_parse i l f => v.failed_parse i l f
  | .missing_label i => v.missing_label i
  | .duplicated_labels l => v.duplicated_labels l
  | .end_visit => .ok v

/-- Run a fresh `CollectVisitor` over a stream of traversal events and return
`all_problems()`. -/
def collect_run (events : List VisitEvent) : Except String ValidationProblems := do
  let v ← events.foldlM CollectVisitor.handle CollectVisitor.new
  v.all_problems

/-- `PrintVisitor.begin_visit`: prints and returns `None` (modelled as the
printed tokens, `document` rendered by the caller). -/
def PrintVisitor.begin_visit (document : String) : Except String (List String) :=
  .ok ["begin_visit", document]

/-- `PrintVisitor.missing_mandatory`: the source prints
`('missing_mandatory', box, field)`, but no name `box` is bound in that scope
(the parameters are `index`, `label` and `field`), so the call raises
`NameError` before printing anything. -/
def PrintVisitor.missing_mandatory (_index : Nat) (_label _field : String) :
    Except String (List String) :=
  .error "NameError: global name box is not defined"

/-- `PrintVisitor.failed_parse`: the source prints `('failed_parse', box,
field)`, but no name `box` is bound in that scope, so the call raises
`NameError` before printing anything. -/
def PrintVisitor.failed_parse (_index : Nat) (_label _field : String) :
    Except String (List String) :=
  .error "NameError: global name box is not defined"

/-- `PrintVisitor.missing_label`: prints and returns `None`. -/
def PrintVisitor.missing_label (index : Nat) : Except String (List String) :=
  .ok ["missing_label", toString index]

/-- `PrintVisitor.duplicated_labels`: prints and returns `None`. -/
def PrintVisitor.duplicated_labels (label : String) : Except String (List String) :=
  .ok ["duplicated_labels", label]

/-- `PrintVisitor.end_visit`: prints and returns `None`. -/
def PrintVisitor.end_visit (document : String) : Except String (List String) :=
  .ok ["end_visit", document]

/-- The construction invariants that the statements about `box_metadata` rely
on: every field is named, names are unique, and no synthesized
`<name>-value` name of a `ChoicesWithData` field is itself a declared name.
Templates built by `MetadataTemplate.init` satisfy all three (they are checks
1, 2 and 5 of `_fields_from_template_spec`). -/
def MetadataTemplate.wf (t : MetadataTemplate) : Prop :=
  (∀ f ∈ t._fields, f.Name.isSome)
  ∧ (t._fields.filterMap (fun f => f.Name)).Nodup
  ∧ (∀ f ∈ t._fields, f.ChoicesWithData.isSome →
      ∀ g ∈ t._fields, g.Name ≠ f.Name.map (fun n => n ++ "-value"))

instance (t : MetadataTemplate) : Decidable t.wf := by
  unfold MetadataTemplate.wf; infer_instance

/-- The derived `<name>-value` entries `box_metadata` computes for a given
fields mapping: one per `ChoicesWithData` field whose raw value in `md`
matches a vocabulary label. -/
def MetadataTemplate.derived_entries (t : MetadataTemplate)
    (md : List (String × String)) : List (String × String) :=
  (t.choices_with_data_mapping.map (fun p => p.2)).filterMap (fieldDerived md)

/-- A parser accepting exactly the non-empty all-digit strings. -/
def parseDigits : String → Bool := fun s => !s.isEmpty && s.data.all Char.isDigit

/-- A parser rejecting everything (it always raises `ValueError`). -/
def parseNever : String → Bool := fun _ => false

/-- Example field: `catalogNumber`, mandatory. -/
def fCat : FieldSpec := { Name := some "catalogNumber", Mandatory := true }

/-- Example field: `sex`, with a `ChoicesWithData` vocabulary (already
converted to its `OrderedDict` representation, as on a constructed template). -/
def fSex : FieldSpec :=
  { Name := some "sex",
    ChoicesWithData := some (.asDict [("M", "Male"), ("F", "Female")]) }

/-- Example field `sex` as it sits in a raw spec, its `ChoicesWithData` still a
list of pairs. -/
def fSexRaw : FieldSpec :=
  { Name := some "sex",
    ChoicesWithData := some (.asList [("M", "Male"), ("F", "Female")]) }

/-- An example template with a mandatory field and a `ChoicesWithData` field
(the template `MetadataTemplate.init` builds from `Name: T`,
`Fields: [fCat, fSexRaw]`). -/
def tB : MetadataTemplate :=
  { _name := "T", _cropped_image_suffix := none, _fields := [fCat, fSex],
    _object_label := "\x7bcatalogNumber\x7d" }

/-- An example record whose `sex` value matches the vocabulary. -/
def bB : Box := { fields := [("sex", "M")] }

/-- Example field `A` with a parser that always fails. -/
def fFailA : FieldSpec := { Name := some "A", Parser := some parseNever }

/-- Example field `B` with a parser that always fails. -/
def fFailB : FieldSpec := { Name := some "B", Parser := some parseNever }

/-- A template declaring `A` before `B`, both with always-failing parsers. -/
def tOrd : MetadataTemplate :=
  { _name := "T", _cropped_image_suffix := none, _fields := [fFailA, fFailB],
    _object_label := "\x7bcatalogNumber\x7d" }

/-- A record carrying values for both `A` and `B`. -/
def bOrd : Box := { fields := [("A", "x"), ("B", "y")] }

/-- A raw spec with a valid `ChoicesWithData` field but an empty template
name: field validation succeeds (and mutates), construction then fails. -/
def specMut : TemplateSpec := { Name := "", Fields := [fSexRaw] }

/-- A raw spec with a field that has no name. -/
def specBad : TemplateSpec := { Name := "T", Fields := [{ Name := none }] }

/-- Example field `MA`, mandatory. -/
def fManA : FieldSpec := { Name := some "MA", Mandatory := true }

/-- Example field `MB`, mandatory. -/
def fManB : FieldSpec := { Name := some "MB", Mandatory := true }

/-- A template declaring two mandatory fields, `MA` before `MB`. -/
def tMand : MetadataTemplate :=
  { _name := "T", _cropped_image_suffix := none, _fields := [fManA, fManB],
    _object_label := "\x7bcatalogNumber\x7d" }

/-- A record with no fields at all. -/
def bEmpty : Box := { fields := [] }

/-- A record whose label under `tB` is `X123`. -/
def bX : Box := { fields := [("catalogNumber", "X123")] }

/-- The error message names the field: `name` occurs in `msg` as a substring. -/
def namesStr (msg name : String) : Prop := name.data <:+: msg.data

instance (msg name : String) : Decidable (namesStr msg name) := by
  unfold namesStr
  infer_instance

/-- A raw spec with one named field and one field without a name. -/
def specNoName : TemplateSpec :=
  { Name := "T", Fields := [{ Name := some "goodField" }, { Name := none }] }

/-- A raw spec with a duplicated field name. -/
def specDup : TemplateSpec := { Name := "T", Fields := [fCat, fCat] }

instance (t : MetadataTemplate) (po : List String) :
    Decidable (IsParseOrder t po) := by
  unfold IsParseOrder
  infer_instance

instance (co labels : List String) : Decidable (IsCounterOrder co labels) := by
  unfold IsCounterOrder
  infer_instance

/-!
## Theorems

First a toolkit about the Python-dict model (`dictGet`, `dictInsert`,
`pyDict`), then the claim theorems.
-/

theorem dictGet_nil {α : Type} (k : String) :
    dictGet ([] : List (String × α)) k = none := rfl

theorem dictGet_cons {α : Type} (a : String) (b : α) (m : List (String × α))
    (k : String) :
    dictGet ((a, b) :: m) k = if a == k then some b else dictGet m k := by
  by_cases h : a == k <;> simp [dictGet, List.find?_cons, h]

theorem dictGet_append {α : Type} (m₁ m₂ : List (String × α)) (k : String) :
    dictGet (m₁ ++ m₂) k = (dictGet m₁ k).or (dictGet m₂ k) := by
  unfold dictGet
  rw [List.find?_append]
  cases List.find? (fun p => p.1 == k) m₁ <;> simp

theorem dictGet_eq_none_iff {α : Type} (m : List (String × α)) (k : String) :
    dictGet m k = none ↔ ∀ q ∈ m, q.1 ≠ k := by
  unfold dictGet
  rw [Option.map_eq_none']
  rw [List.find?_eq_none]
  simp

theorem dictGet_eq_some_of_mem {α : Type} {m : List (String × α)}
    {k : String} {v : α} (h : dictGet m k = some v) : (k, v) ∈ m := by
  unfold dictGet at h
  rw [Option.map_eq_some'] at h
  obtain ⟨q, hq, hv⟩ := h
  have hmem := List.mem_of_find?_eq_some hq
  have hpred := List.find?_some hq
  simp only [beq_iff_eq] at hpred
  have : (k, v) = q := by
    cases q; simp_all
  rw [this]; exact hmem

theorem dictGet_eq_some_of_mem_nodup {α : Type} {m : List (String × α)}
    (hnd : (m.map (fun p => p.1)).Nodup) {k : String} {v : α}
    (h : (k, v) ∈ m) : dictGet m k = some v := by
  induction m with
  | nil => cases h
  | cons p rest ih =>
    simp only [List.map_cons, List.nodup_cons] at hnd
    rcases List.mem_cons.mp h with h' | h'
    · rw [← h', dictGet_cons]
      simp
    · have hne : ¬(p.1 == k) := by
        intro hk
        have : k ∈ rest.map (fun p => p.1) :=
          List.mem_map.mpr ⟨(k, v), h', rfl⟩
        rw [beq_iff_eq] at hk
        exact hnd.1 (hk ▸ this)
      cases p
      rw [dictGet_cons, if_neg hne]
      exact ih hnd.2 h'

theorem dictGet_map_update_self {α : Type} (m : List (String × α)) (k : String)
    (v : α) (h : m.any (fun p => p.1 == k) = true) :
    dictGet (m.map (fun p => if p.1 == k then (k, v) else p)) k = some v := by
  induction m with
  | nil => simp at h
  | cons p rest ih =>
    obtain ⟨a, b⟩ := p
    rw [List.map_cons]
    by_cases hp : ((a, b).1 == k) = true
    · rw [if_pos hp, dictGet_cons, if_pos (by simp)]
    · rw [if_neg hp, dictGet_cons, if_neg hp]
      apply ih
      simp only [List.any_cons, hp, Bool.false_or] at h
      exact h

theorem dictGet_map_update_ne {α : Type} (m : List (String × α)) (k k' : String)
    (v : α) (hne : k' ≠ k) :
    dictGet (m.map (fun p => if p.1 == k then (k, v) else p)) k'
      = dictGet m k' := by
  induction m with
  | nil => rfl
  | cons p rest ih =>
    obtain ⟨a, b⟩ := p
    rw [List.map_cons]
    by_cases hp : ((a, b).1 == k) = true
    · rw [if_pos hp, dictGet_cons, dictGet_cons]
      have hak : a = k := by simpa using hp
      have h1 : ¬((k == k') = true) := fun hx => hne (beq_iff_eq.mp hx).symm
      have h2 : ¬((a == k') = true) := by
        rw [hak]; exact h1
      rw [if_neg h1, if_neg h2]
      exact ih
    · rw [if_neg hp, dictGet_cons, dictGet_cons]
      by_cases ha : (a == k') = true
      · rw [if_pos ha, if_pos ha]
      · rw [if_neg ha, if_neg ha]
        exact ih

theorem dictGet_dictInsert_self {α : Type} (m : List (String × α)) (k : String)
    (v : α) : dictGet (dictInsert m k v) k = some v := by
  unfold dictInsert
  by_cases h : m.any (fun p => p.1 == k) = true
  · rw [if_pos h]
    exact dictGet_map_update_self m k v h
  · rw [if_neg h, dictGet_append]
    have hnone : dictGet m k = none := by
      rw [dictGet_eq_none_iff]
      intro q hq hqk
      exact h (List.any_eq_true.mpr ⟨q, hq, by simp [hqk]⟩)
    rw [hnone, dictGet_cons, if_pos (by simp)]
    rfl

theorem dictGet_dictInsert_ne {α : Type} (m : List (String × α)) (k k' : String)
    (v : α) (hne : k' ≠ k) : dictGet (dictInsert m k v) k' = dictGet m k' := by
  unfold dictInsert
  by_cases h : m.any (fun p => p.1 == k) = true
  · rw [if_pos h]
    exact dictGet_map_update_ne m k k' v hne
  · rw [if_neg h, dictGet_append, dictGet_cons]
    have h1 : ¬((k == k') = true) := fun hx => hne (beq_iff_eq.mp hx).symm
    rw [if_neg h1, dictGet_nil]
    cases dictGet m k' <;> rfl

theorem mem_of_mem_dictInsert {α : Type} {m : List (String × α)} {k : String}
    {v : α} {q : String × α} (h : q ∈ dictInsert m k v) : q ∈ m ∨ q = (k, v) := by
  unfold dictInsert at h
  by_cases ha : m.any (fun p => p.1 == k) = true
  · rw [if_pos ha] at h
    rcases List.mem_map.mp h with ⟨p, hp, hq⟩
    by_cases hpk : (p.1 == k) = true
    · rw [if_pos hpk] at hq
      exact Or.inr hq.symm
    · rw [if_neg hpk] at hq
      exact Or.inl (hq ▸ hp)
  · rw [if_neg ha] at h
    rcases List.mem_append.mp h with h' | h'
    · exact Or.inl h'
    · exact Or.inr (List.mem_singleton.mp h')

theorem mem_pyDict_aux {α : Type} (l : List (String × α)) :
    ∀ (m : List (String × α)) (q : String × α),
      q ∈ l.foldl (fun m p => dictInsert m p.1 p.2) m → q ∈ m ∨ q ∈ l := by
  induction l with
  | nil =>
    intro m q h
    exact Or.inl h
  | cons p rest ih =>
    intro m q h
    rw [List.foldl_cons] at h
    rcases ih _ q h with h' | h'
    · rcases mem_of_mem_dictInsert h' with h'' | h''
      · exact Or.inl h''
      · right
        rw [h'', Prod.mk.eta]
        exact List.mem_cons_self _ _
    · exact Or.inr (List.mem_cons_of_mem _ h')

theorem mem_pyDict {α : Type} {l : List (String × α)} {q : String × α}
    (h : q ∈ pyDict l) : q ∈ l := by
  rcases mem_pyDict_aux l [] q h with h' | h'
  · cases h'
  · exact h'

theorem keys_dictInsert_map {α : Type} (m : List (String × α)) (k : String)
    (v : α) :
    (m.map (fun p => if p.1 == k then (k, v) else p)).map (fun p => p.1)
      = m.map (fun p => p.1) := by
  rw [List.map_map]
  apply List.map_congr_left
  intro p _
  by_cases hpk : (p.1 == k) = true
  · simp only [Function.comp_apply, if_pos hpk]
    exact (beq_iff_eq.mp hpk).symm
  · simp only [Function.comp_apply, if_neg hpk]

theorem keys_pyDict_nodup_aux {α : Type} (l : List (String × α)) :
    ∀ m : List (String × α), (m.map (fun p => p.1)).Nodup →
      ((l.foldl (fun m p => dictInsert m p.1 p.2) m).map (fun p => p.1)).Nodup := by
  induction l with
  | nil =>
    intro m h
    exact h
  | cons p rest ih =>
    intro m h
    rw [List.foldl_cons]
    apply ih
    unfold dictInsert
    by_cases ha : m.any (fun q => q.1 == p.1) = true
    · rw [if_pos ha, keys_dictInsert_map]
      exact h
    · rw [if_neg ha, List.map_append]
      rw [List.nodup_append]
      refine ⟨h, by simp, ?_⟩
      intro x hx hx2
      simp only [List.map_cons, List.map_nil, List.mem_singleton] at hx2
      rcases List.mem_map.mp hx with ⟨q, hq, hqx⟩
      exact ha (List.any_eq_true.mpr ⟨q, hq, by simp [hqx, hx2]⟩)

theorem keys_pyDict_nodup {α : Type} (l : List (String × α)) :
    ((pyDict l).map (fun p => p.1)).Nodup :=
  keys_pyDict_nodup_aux l [] (by simp)

theorem fst_preserving_filterMap_keys_sublist {α β : Type}
    (l : List (String × α)) (g : String × α → Option (String × β))
    (hg : ∀ p q, g p = some q → q.1 = p.1) :
    ((l.filterMap g).map (fun p => p.1)).Sublist (l.map (fun p => p.1)) := by
  induction l with
  | nil => simp
  | cons p rest ih =>
    rw [List.filterMap_cons, List.map_cons]
    cases hgp : g p with
    | none => exact ih.cons _
    | some q =>
      rw [List.map_cons, hg p q hgp]
      exact ih.cons₂ _

theorem parse_mapping_keys_nodup (t : MetadataTemplate) :
    (t.parse_mapping.map (fun p => p.1)).Nodup := by
  unfold MetadataTemplate.parse_mapping
  refine List.Nodup.sublist
    (fst_preserving_filterMap_keys_sublist _ _ ?_) ?_
  · intro p q hpq
    rcases Option.map_eq_some'.mp hpq with ⟨pr, _, hq⟩
    rw [← hq]
  · exact keys_pyDict_nodup _

theorem cwd_value_mem_fields {t : MetadataTemplate} {p : String × FieldSpec}
    (h : p ∈ t.choices_with_data_mapping) :
    p.2 ∈ t._fields ∧ p.2.Name = some p.1 ∧ p.2.ChoicesWithData.isSome = true := by
  have h' := mem_pyDict h
  rcases List.mem_filterMap.mp h' with ⟨f, hf, hsome⟩
  by_cases hc : f.ChoicesWithData.isSome = true
  · rw [if_pos hc] at hsome
    rcases Option.map_eq_some'.mp hsome with ⟨n, hn, hq⟩
    rw [← hq]
    exact ⟨hf, hn, hc⟩
  · rw [if_neg hc] at hsome
    cases hsome

theorem cwd_values_names_eq_keys (t : MetadataTemplate) :
    (t.choices_with_data_mapping.map (fun p => p.2)).filterMap (fun f => f.Name)
      = t.choices_with_data_mapping.map (fun p => p.1) := by
  have : ∀ l : List (String × FieldSpec),
      (∀ p ∈ l, p.2.Name = some p.1) →
      (l.map (fun p => p.2)).filterMap (fun f => f.Name)
        = l.map (fun p => p.1) := by
    intro l
    induction l with
    | nil => intro _; rfl
    | cons p rest ih =>
      intro hl
      rw [List.map_cons, List.filterMap_cons, hl p (List.mem_cons_self _ _)]
      rw [List.map_cons, ih (fun q hq => hl q (List.mem_cons_of_mem _ hq))]
  exact this _ (fun p hp => (cwd_value_mem_fields hp).2.1)

theorem string_append_right_cancel {a b c : String} (h : a ++ c = b ++ c) :
    a = b := by
  have hd := congrArg String.data h
  simp only [String.data_append] at hd
  exact String.ext (List.append_cancel_right hd)

theorem fieldDerived_congr {md₁ md₂ : List (String × String)} (f : FieldSpec)
    (h : ∀ n, f.Name = some n → dictGet md₁ n = dictGet md₂ n) :
    fieldDerived md₁ f = fieldDerived md₂ f := by
  unfold fieldDerived
  cases hn : f.Name with
  | none => rfl
  | some n =>
    cases f.ChoicesWithData with
    | none => rfl
    | some c =>
      dsimp only
      rw [h n hn]

theorem fieldDerived_eq_some {md : List (String × String)} {f : FieldSpec}
    {kv : String × String} (h : fieldDerived md f = some kv) :
    ∃ n, f.Name = some n ∧ kv.1 = n ++ "-value" := by
  unfold fieldDerived at h
  cases hn : f.Name with
  | none =>
    rw [hn] at h
    cases h
  | some n =>
    rw [hn] at h
    cases hc : f.ChoicesWithData with
    | none =>
      rw [hc] at h
      cases h
    | some c =>
      rw [hc] at h
      dsimp only at h
      cases hv : dictGet md n with
      | none =>
        rw [hv] at h
        cases h
      | some v =>
        rw [hv] at h
        rcases Option.map_eq_some'.mp h with ⟨d, _, hkv⟩
        exact ⟨n, rfl, by rw [← hkv]⟩

/-- The key fact behind the `box_metadata` statements: when the fields of `D`
have pairwise-distinct names and no field's name is another field's
`<name>-value` derived name, the left fold of the per-field update is, as a
mapping, the derived entries computed against the initial `md` overriding
`md`. -/
theorem bm_fold_lookup : ∀ (D : List FieldSpec),
    (D.filterMap (fun f => f.Name)).Nodup →
    (∀ f ∈ D, ∀ g ∈ D, ∀ n m, f.Name = some n → g.Name = some m →
        m ≠ n ++ "-value") →
    ∀ (md : List (String × String)) (k : String),
      dictGet (D.foldl (fun md f =>
          match fieldDerived md f with
          | some kv => dictInsert md kv.1 kv.2
          | none => md) md) k
        = match dictGet (D.filterMap (fieldDerived md)) k with
          | some d => some d
          | none => dictGet md k := by
  intro D
  induction D with
  | nil =>
    intro _ _ md k
    rw [List.foldl_nil, List.filterMap_nil, dictGet_nil]
  | cons f rest ih =>
    intro hnames hr md k
    have hnames' : (rest.filterMap (fun f => f.Name)).Nodup := by
      rw [List.filterMap_cons] at hnames
      cases hf : f.Name with
      | none => rw [hf] at hnames; exact hnames
      | some n => rw [hf] at hnames; exact (List.nodup_cons.mp hnames).2
    have hr' : ∀ g ∈ rest, ∀ g' ∈ rest, ∀ n m, g.Name = some n →
        g'.Name = some m → m ≠ n ++ "-value" :=
      fun g hg g' hg' n m hn hm =>
        hr g (List.mem_cons_of_mem _ hg) g' (List.mem_cons_of_mem _ hg') n m hn hm
    rw [List.foldl_cons, List.filterMap_cons]
    cases hfd : fieldDerived md f with
    | none =>
      rw [ih hnames' hr' md k]
    | some kv =>
      obtain ⟨w, d⟩ := kv
      rcases fieldDerived_eq_some hfd with ⟨n, hfn, hw⟩
      simp only at hw
      subst hw
      -- the tail's reads are untouched by this write
      have hstable : rest.filterMap (fieldDerived (dictInsert md (n ++ "-value") d))
          = rest.filterMap (fieldDerived md) := by
        apply List.filterMap_congr
        intro g hg
        apply fieldDerived_congr
        intro m hm
        exact dictGet_dictInsert_ne md (n ++ "-value") m d
          (hr f (List.mem_cons_self _ _) g (List.mem_cons_of_mem _ hg) n m hfn hm)
      rw [ih hnames' hr' (dictInsert md (n ++ "-value") d) k, hstable]
      -- the tail writes no binding for this derived key
      have hnone : dictGet (rest.filterMap (fieldDerived md)) (n ++ "-value") = none := by
        rw [dictGet_eq_none_iff]
        intro q hq hq1
        rcases List.mem_filterMap.mp hq with ⟨g, hg, hgq⟩
        rcases fieldDerived_eq_some hgq with ⟨m, hgm, hqm⟩
        have hmn : m = n := by
          apply string_append_right_cancel (c := "-value")
          rw [← hqm, hq1]
        -- the head's name cannot recur in the tail
        rw [List.filterMap_cons, hfn] at hnames
        rcases List.nodup_cons.mp hnames with ⟨hnot, _⟩
        exact hnot (List.mem_filterMap.mpr ⟨g, hg, by rw [hgm, hmn]⟩)
      by_cases hk : k = n ++ "-value"
      · subst hk
        rw [hnone, dictGet_cons, if_pos (by simp),
          dictGet_dictInsert_self]
      · rw [dictGet_cons, if_neg (fun hx => hk (beq_iff_eq.mp hx).symm)]
        cases hrest : dictGet (rest.filterMap (fieldDerived md)) k with
        | some d' => rfl
        | none => rw [dictGet_dictInsert_ne md _ k d hk]

/-- `box_metadata(box)`, as a mapping: the derived `<name>-value` entries
(computed against the record's own fields) overriding the record's fields. -/
theorem box_metadata_lookup (t : MetadataTemplate) (hwf : t.wf) (b : Box)
    (k : String) :
    dictGet (t.box_metadata b) k
      = match dictGet (t.derived_entries b.fields) k with
        | some d => some d
        | none => dictGet b.fields k := by
  unfold MetadataTemplate.box_metadata MetadataTemplate.derived_entries
  apply bm_fold_lookup
  · rw [cwd_values_names_eq_keys]
    unfold MetadataTemplate.choices_with_data_mapping
    exact keys_pyDict_nodup _
  · intro f hf g hg n m hfn hgm
    rcases List.mem_map.mp hf with ⟨p, hp, hpf⟩
    rcases List.mem_map.mp hg with ⟨q, hq, hqg⟩
    have hpfact := cwd_value_mem_fields hp
    have hqfact := cwd_value_mem_fields hq
    have h3 := hwf.2.2 p.2 hpfact.1 hpfact.2.2 q.2 hqfact.1
    rw [hpf] at h3
    rw [hfn] at h3
    intro hmn
    apply h3
    rw [hqg, hgm, hmn]
    rfl

/-- Looking up a declared field name in `box_metadata(box)` gives the record's
own value: the derived entries never shadow a declared name. -/
theorem box_metadata_declared_stable (t : MetadataTemplate) (hwf : t.wf)
    (b : Box) {A : String} (hA : ∃ g ∈ t._fields, g.Name = some A) :
    dictGet (t.box_metadata b) A = dictGet b.fields A := by
  rw [box_metadata_lookup t hwf b A]
  have hnone : dictGet (t.derived_entries b.fields) A = none := by
    rw [dictGet_eq_none_iff]
    intro q hq hq1
    unfold MetadataTemplate.derived_entries at hq
    rcases List.mem_filterMap.mp hq with ⟨f, hf, hfq⟩
    rcases List.mem_map.mp hf with ⟨p, hp, hpf⟩
    rcases fieldDerived_eq_some hfq with ⟨n, hfn, hqn⟩
    rcases hA with ⟨g, hg, hgA⟩
    have hpfact := cwd_value_mem_fields hp
    have h3 := hwf.2.2 p.2 hpfact.1 hpfact.2.2 g hg
    apply h3
    replace hpf : p.2 = f := hpf
    rw [hpf]
    rw [hgA, hfn]
    simp only [Option.map_some']
    rw [← hqn, hq1]
  rw [hnone]

/-- `box_metadata` is idempotent as a mapping: calling it again on the
(mutated) record returns an equal mapping. -/
theorem box_metadata_idem (t : MetadataTemplate) (hwf : t.wf) (b : Box)
    (k : String) :
    dictGet (t.box_metadata (box_after_box_metadata t b)) k
      = dictGet (t.box_metadata b) k := by
  have hde : t.derived_entries (t.box_metadata b) = t.derived_entries b.fields := by
    unfold MetadataTemplate.derived_entries
    apply List.filterMap_congr
    intro f hf
    apply fieldDerived_congr
    intro n hn
    rcases List.mem_map.mp hf with ⟨p, hp, hpf⟩
    have hpfact := cwd_value_mem_fields hp
    refine box_metadata_declared_stable t hwf b ⟨p.2, hpfact.1, ?_⟩
    replace hpf : p.2 = f := hpf
    rw [hpf, hn]
  have h1 : (box_after_box_metadata t b).fields = t.box_metadata b := rfl
  rw [box_metadata_lookup t hwf (box_after_box_metadata t b) k, h1, hde,
    box_metadata_lookup t hwf b k]
  cases dictGet (t.derived_entries b.fields) k <;> rfl

theorem falsy_eq_false_iff (o : Option String) :
    falsy o = false ↔ ∃ v, o = some v ∧ v ≠ "" := by
  cases o with
  | none => simp [falsy]
  | some s =>
    simp only [falsy, Option.some.injEq]
    rw [Bool.eq_false_iff]
    constructor
    · intro h
      exact ⟨s, rfl, fun hs => h ((String.isEmpty_iff s).mpr hs)⟩
    · rintro ⟨v, hv, hne⟩ hx
      exact hne (hv ▸ (String.isEmpty_iff s).mp hx)

/-- C1 (amended): for every well-formed template and every record,
`record_metadata` (`box_metadata`) returns the record's fields plus a
`<name>-value` entry for each `ChoicesWithData` field whose raw value matches a
vocabulary label, and no entry when there is no match; but the mapping is
written into the caller's record — after the call `record.fields` holds the
returned mapping — and calling it twice on the same record returns equal
mappings. -/
theorem box_metadata_amended (t : MetadataTemplate) (hwf : t.wf) (b : Box) :
    (∀ k, dictGet (t.box_metadata b) k
        = match dictGet (t.derived_entries b.fields) k with
          | some d => some d
          | none => dictGet b.fields k)
    ∧ (box_after_box_metadata t b).fields = t.box_metadata b
    ∧ (∀ k, dictGet (t.box_metadata (box_after_box_metadata t b)) k
        = dictGet (t.box_metadata b) k) :=
  ⟨fun k => box_metadata_lookup t hwf b k, rfl,
   fun k => box_metadata_idem t hwf b k⟩

/-- Witness for the C1 theorem at the Scenario-B template and record: the
derived entry is looked up through the characterization. -/
theorem box_metadata_amended_witness :
    dictGet (tB.box_metadata bB) "sex-value"
      = match dictGet (tB.derived_entries bB.fields) "sex-value" with
        | some d => some d
        | none => dictGet bB.fields "sex-value" :=
  (box_metadata_amended tB (by decide) bB).1 "sex-value"

/-- C1 counterexample: `box_metadata` mutates the caller's record — at this
concrete template and record, `record.fields` is changed by the call (it gains
the `sex-value` entry), refuting "never mutates the caller's record: after the
call, record.fields is unchanged". -/
theorem box_metadata_mutates_counterexample :
    (box_after_box_metadata tB bB).fields ≠ bB.fields
    ∧ dictGet bB.fields "sex-value" = none
    ∧ dictGet (box_after_box_metadata tB bB).fields "sex-value" = some "Male" := by
  decide

/-- C2: evaluation at the failing input — after `begin_visit` and
`failed_parse(0, 'lbl', 'catalogNumber')`, the entry stored in the report's
`failed_parse` collection holds the field in its `index` slot, the index in its
`label` slot and the label in its `field` slot (the source constructs
`FailedParse(field, index, label)` against the namedtuple's declared order
`(index, label, field)`), so the stored entry is not the claimed
`(index, label, field)` tuple. -/
theorem collect_failed_parse_swapped :
    collect_run [VisitEvent.begin_visit,
        VisitEvent.failed_parse 0 "lbl" "catalogNumber"]
      = .ok { missing_mandatory := [],
              failed_parse := [{ index := .str "catalogNumber",
                                 label := .int 0, field := .str "lbl" }],
              missing_label := [], duplicated_labels := [] }
    ∧ ({ index := PyVal.str "catalogNumber", label := PyVal.int 0,
         field := PyVal.str "lbl" } : FailedParse)
        ≠ { index := PyVal.int 0, label := PyVal.str "lbl",
            field := PyVal.str "catalogNumber" } :=
  ⟨rfl, by decide⟩

/-- C7: `validate_field(name, value)` returns true for every field name that
is not declared in the template, for every value (including the empty
string). -/
theorem validate_field_unknown_true (t : MetadataTemplate) (field value : String)
    (h : dictGet t.fields_mapping field = none) :
    t.validate_field field value = true := by
  unfold MetadataTemplate.validate_field
  rw [h]
  rfl

/-- Witness for the C7 theorem: an unknown field name on the example template,
with an arbitrary value. -/
theorem validate_field_unknown_true_witness :
    tB.validate_field "unknownField" "anything" = true :=
  validate_field_unknown_true tB "unknownField" "anything" (by rfl)

/-- C8: evaluation at the failing input — the printing reporter's
`missing_mandatory` and `failed_parse` callbacks raise `NameError` (their
bodies print the name `box`, which is not bound in that scope) instead of
writing the event and returning normally; the other four callbacks do write
their event and return normally. -/
theorem print_visitor_raises :
    PrintVisitor.missing_mandatory 0 "label" "catalogNumber"
      = .error "NameError: global name box is not defined"
    ∧ PrintVisitor.failed_parse 0 "label" "catalogNumber"
      = .error "NameError: global name box is not defined"
    ∧ PrintVisitor.begin_visit "doc" = .ok ["begin_visit", "doc"]
    ∧ PrintVisitor.missing_label 3 = .ok ["missing_label", "3"]
    ∧ PrintVisitor.duplicated_labels "X" = .ok ["duplicated_labels", "X"]
    ∧ PrintVisitor.end_visit "doc" = .ok ["end_visit", "doc"] :=
  ⟨rfl, rfl, rfl, rfl, rfl, rfl⟩

/-- C10: a fresh `CollectVisitor` has no accumulators — `all_problems` before
any `begin_visit` raises `AttributeError` — and after `begin_visit` has run,
`all_problems` returns a `ValidationProblems` value (the empty report). -/
theorem collect_visitor_requires_begin :
    CollectVisitor.new.all_problems
      = .error "AttributeError: _missing_mandatory"
    ∧ ∀ v : CollectVisitor,
        v.begin_visit.all_problems
          = .ok { missing_mandatory := [], failed_parse := [],
                  missing_label := [], duplicated_labels := [] } :=
  ⟨rfl, fun _ => rfl⟩

/-- C4: `validate_record` (`validate_box`) returns true iff every mandatory
field of the template has a non-empty value in the record's fields and every
field present in the record's fields that has a registered parser parses
successfully; parser failure is a boolean result, never an exception. -/
theorem validate_box_iff (t : MetadataTemplate) (b : Box) :
    t.validate_box b = true ↔
      ((∀ f ∈ t.mandatory, ∃ v, dictGet b.fields f = some v ∧ v ≠ "")
       ∧ ∀ k parse v, t.parse_for k = some parse →
           dictGet b.fields k = some v → parse v = true) := by
  unfold MetadataTemplate.validate_box
  by_cases hm : t.mandatory.any (fun f => falsy (dictGet b.fields f)) = true
  · rw [if_pos hm]
    constructor
    · intro h
      cases h
    · rintro ⟨h1, _⟩
      rcases List.any_eq_true.mp hm with ⟨f, hf, hfalsy⟩
      rcases h1 f hf with ⟨v, hv, hne⟩
      rw [hv] at hfalsy
      exact absurd hfalsy (by simp [falsy, hne, String.isEmpty_iff])
  · rw [if_neg hm]
    rw [List.all_eq_true]
    constructor
    · intro h
      constructor
      · intro f hf
        rw [← falsy_eq_false_iff]
        rw [Bool.eq_false_iff]
        intro hx
        exact hm (List.any_eq_true.mpr ⟨f, hf, hx⟩)
      · intro k parse v hk hv
        have hmem := dictGet_eq_some_of_mem hk
        have h2 := h (k, parse) hmem
        dsimp only at h2
        rw [hv] at h2
        exact h2
    · rintro ⟨_, h2⟩
      intro kp hkp
      obtain ⟨k, parse⟩ := kp
      dsimp only
      cases hv : dictGet b.fields k with
      | none => rfl
      | some v =>
        have hdict : dictGet t.parse_mapping k = some parse :=
          dictGet_eq_some_of_mem_nodup (parse_mapping_keys_nodup t) hkp
        exact h2 k parse v hdict hv

theorem duplicated_eq_nil_iff (xs : List String) :
    duplicated xs = [] ↔ xs.Nodup := by
  unfold duplicated
  rw [List.dedup_eq_nil, List.filter_eq_nil_iff]
  rw [List.nodup_iff_count_le_one]
  constructor
  · intro h a
    by_cases ha : a ∈ xs
    · have := h a ha
      simp only [decide_eq_true_eq] at this
      omega
    · have : List.count a xs = 0 := List.count_eq_zero.mpr ha
      omega
  · intro h a ha
    simp only [decide_eq_true_eq]
    have := h a
    omega

theorem checkChoices_ok : ∀ (l : List FieldSpec), checkChoices l = .ok () →
    ∀ f ∈ l, ∀ cs, f.Choices = some cs → duplicated cs = [] ∧ cs ≠ [] := by
  intro l
  induction l with
  | nil =>
    intro _ f hf
    cases hf
  | cons g rest ih =>
    intro h f hf cs hcs
    unfold checkChoices at h
    cases hg : g.Choices with
    | none =>
      rw [hg] at h
      rcases List.mem_cons.mp hf with rfl | hf'
      · rw [hg] at hcs
        cases hcs
      · exact ih h f hf' cs hcs
    | some gcs =>
      rw [hg] at h
      dsimp only at h
      by_cases h1 : duplicated gcs ≠ []
      · rw [if_pos h1] at h
        cases h
      · rw [if_neg h1] at h
        by_cases h2 : gcs.isEmpty = true
        · rw [if_pos h2] at h
          cases h
        · rw [if_neg h2] at h
          rcases List.mem_cons.mp hf with rfl | hf'
          · rw [hg] at hcs
            injection hcs with hcs
            subst hcs
            refine ⟨of_not_not h1, ?_⟩
            intro hx
            rw [hx] at h2
            exact h2 rfl
          · exact ih h f hf' cs hcs

theorem checkCWD_ok : ∀ (l : List FieldSpec) (ns : List String),
    checkCWD ns l = .ok () →
    ∀ f ∈ l, ∀ c, f.ChoicesWithData = some c →
      duplicated (c.pairs.map (fun p => p.1)) = [] ∧ c.pairs ≠ [] := by
  intro l
  induction l with
  | nil =>
    intro _ _ f hf
    cases hf
  | cons g rest ih =>
    intro ns h f hf c hc
    unfold checkCWD at h
    cases hg : g.ChoicesWithData with
    | none =>
      rw [hg] at h
      rcases List.mem_cons.mp hf with rfl | hf'
      · rw [hg] at hc
        cases hc
      · exact ih ns h f hf' c hc
    | some gc =>
      rw [hg] at h
      dsimp only at h
      by_cases h1 : ns.contains (g.Name.getD "" ++ "-value") = true
      · rw [if_pos h1] at h
        cases h
      · rw [if_neg h1] at h
        by_cases h2 : duplicated (gc.pairs.map (fun p => p.1)) ≠ []
        · rw [if_pos h2] at h
          cases h
        · rw [if_neg h2] at h
          by_cases h3 : gc.pairs.isEmpty = true
          · rw [if_pos h3] at h
            cases h
          · rw [if_neg h3] at h
            rcases List.mem_cons.mp hf with rfl | hf'
            · rw [hg] at hc
              injection hc with hc
              subst hc
              refine ⟨of_not_not h2, ?_⟩
              intro hx
              rw [hx] at h3
              exact h3 rfl
            · exact ih ns h f hf' c hc

theorem fields_from_template_spec_ok {l fs : List FieldSpec}
    (h : _fields_from_template_spec l = .ok fs) :
    fs = l.map convertCWD
    ∧ (∀ f ∈ l, f.Name.isSome = true)
    ∧ duplicated (l.filterMap (fun f => f.Name)) = []
    ∧ (∀ f ∈ l, ¬(f.Choices.isSome = true ∧ f.ChoicesWithData.isSome = true))
    ∧ (∀ f ∈ l, ∀ cs, f.Choices = some cs → duplicated cs = [] ∧ cs ≠ [])
    ∧ (∀ f ∈ l, ∀ c, f.ChoicesWithData = some c →
        duplicated (c.pairs.map (fun p => p.1)) = [] ∧ c.pairs ≠ []) := by
  unfold _fields_from_template_spec at h
  by_cases h1 : l.any (fun f => f.Name.isNone) = true
  · rw [if_pos h1] at h
    cases h
  · rw [if_neg h1] at h
    by_cases h2 : duplicated (l.filterMap (fun f => f.Name)) ≠ []
    · rw [if_pos h2] at h
      cases h
    · rw [if_neg h2] at h
      cases h3 : l.find? (fun f => f.Choices.isSome && f.ChoicesWithData.isSome) with
      | some bad =>
        rw [h3] at h
        cases h
      | none =>
        rw [h3] at h
        cases h4 : checkChoices l with
        | error e =>
          rw [h4] at h
          cases h
        | ok u =>
          cases u
          rw [h4] at h
          cases h5 : checkCWD (l.filterMap (fun f => f.Name)) l with
          | error e =>
            rw [h5] at h
            cases h
          | ok u =>
            cases u
            rw [h5] at h
            injection h with h
            refine ⟨h.symm, ?_, of_not_not h2, ?_, checkChoices_ok l h4,
              checkCWD_ok l _ h5⟩
            · intro f hf
              by_contra hx
              have hn : f.Name.isNone = true := by
                cases hN : f.Name
                · rfl
                · rw [hN] at hx
                  exact absurd rfl hx
              exact h1 (List.any_eq_true.mpr ⟨f, hf, hn⟩)
            · intro f hf hc
              have := List.find?_eq_none.mp h3 f hf
              simp only [Bool.and_eq_true] at this
              exact this ⟨hc.1, hc.2⟩

/-- Any spec in one of the four bad classes fails template construction; no
template value is produced (helper for the amended C6 theorem below). -/
theorem init_fails_on_bad_spec (spec : TemplateSpec)
    (h : (∃ f ∈ spec.Fields, f.Name = none)
       ∨ ¬(spec.Fields.filterMap (fun f => f.Name)).Nodup
       ∨ (∃ f ∈ spec.Fields,
            f.Choices.isSome = true ∧ f.ChoicesWithData.isSome = true)
       ∨ (∃ f ∈ spec.Fields, ∃ cs, f.Choices = some cs
            ∧ (cs = [] ∨ ¬cs.Nodup))
       ∨ (∃ f ∈ spec.Fields, ∃ c, f.ChoicesWithData = some c
            ∧ (c.pairs = [] ∨ ¬(c.pairs.map (fun p => p.1)).Nodup))) :
    ∃ e, MetadataTemplate.init spec = .error e := by
  cases hfe : _fields_from_template_spec spec.Fields with
  | error e =>
    refine ⟨e, ?_⟩
    unfold MetadataTemplate.init
    rw [hfe]
  | ok fs =>
    exfalso
    obtain ⟨_, hnames, hdup, hboth, hch, hcwd⟩ := fields_from_template_spec_ok hfe
    rcases h with h | h | h | h | h
    · rcases h with ⟨f, hf, hn⟩
      have := hnames f hf
      rw [hn] at this
      cases this
    · exact h ((duplicated_eq_nil_iff _).mp hdup)
    · rcases h with ⟨f, hf, hc⟩
      exact hboth f hf hc
    · rcases h with ⟨f, hf, cs, hcs, hbad⟩
      rcases hch f hf cs hcs with ⟨hd, hne⟩
      rcases hbad with rfl | hnd
      · exact hne rfl
      · exact hnd ((duplicated_eq_nil_iff _).mp hd)
    · rcases h with ⟨f, hf, c, hc, hbad⟩
      rcases hcwd f hf c hc with ⟨hd, hne⟩
      rcases hbad with he | hnd
      · exact hne he
      · exact hnd ((duplicated_eq_nil_iff _).mp hd)

theorem namesStr_widen_left (a x name : String) (h : namesStr x name) :
    namesStr (a ++ x) name := by
  unfold namesStr at h ⊢
  rw [String.data_append]
  exact h.trans (List.suffix_append a.data x.data).isInfix

theorem namesStr_widen_right (x b name : String) (h : namesStr x name) :
    namesStr (x ++ b) name := by
  unfold namesStr at h ⊢
  rw [String.data_append]
  exact h.trans (List.prefix_append x.data b.data).isInfix

theorem namesStr_self (name : String) : namesStr name name :=
  List.infix_refl _

theorem self_mem_insertSorted (x : String) : ∀ (ys : List String),
    x ∈ insertSorted x ys := by
  intro ys
  induction ys with
  | nil => exact List.mem_cons_self _ _
  | cons z zs ih =>
    unfold insertSorted
    by_cases hxz : x ≤ z
    · rw [if_pos hxz]
      exact List.mem_cons_self _ _
    · rw [if_neg hxz]
      exact List.mem_cons_of_mem _ ih

theorem mem_insertSorted (x y : String) : ∀ (ys : List String), y ∈ ys →
    y ∈ insertSorted x ys := by
  intro ys
  induction ys with
  | nil =>
    intro h
    cases h
  | cons z zs ih =>
    intro h
    unfold insertSorted
    by_cases hxz : x ≤ z
    · rw [if_pos hxz]
      exact List.mem_cons_of_mem _ h
    · rw [if_neg hxz]
      rcases List.mem_cons.mp h with rfl | h'
      · exact List.mem_cons_self _ _
      · exact List.mem_cons_of_mem _ (ih h')

theorem mem_sortStrings (y : String) : ∀ (xs : List String), y ∈ xs →
    y ∈ sortStrings xs := by
  intro xs
  induction xs with
  | nil =>
    intro h
    cases h
  | cons x rest ih =>
    intro h
    show y ∈ insertSorted x (sortStrings rest)
    rcases List.mem_cons.mp h with rfl | h'
    · exact self_mem_insertSorted y _
    · exact mem_insertSorted x y _ (ih h')

theorem namesStr_joinComma : ∀ (l : List String) (x : String), x ∈ l →
    namesStr (joinComma l) x := by
  intro l
  induction l with
  | nil =>
    intro x h
    cases h
  | cons a rest ih =>
    intro x h
    cases rest with
    | nil =>
      rw [List.mem_singleton] at h
      subst h
      exact namesStr_self x
    | cons b bs =>
      rcases List.mem_cons.mp h with rfl | h'
      · show namesStr (x ++ ", " ++ joinComma (b :: bs)) x
        exact namesStr_widen_right _ _ _
          (namesStr_widen_right _ _ _ (namesStr_self x))
      · show namesStr (a ++ ", " ++ joinComma (b :: bs)) x
        exact namesStr_widen_left _ _ _ (ih x h')

theorem checkChoices_error_names : ∀ (l : List FieldSpec) (e : String),
    checkChoices l = .error e →
    ∃ f ∈ l, ∃ cs, f.Choices = some cs
      ∧ (duplicated cs ≠ [] ∨ cs.isEmpty = true)
      ∧ namesStr e (f.Name.getD "") := by
  intro l
  induction l with
  | nil =>
    intro e h
    cases h
  | cons g rest ih =>
    intro e h
    unfold checkChoices at h
    cases hg : g.Choices with
    | none =>
      rw [hg] at h
      rcases ih e h with ⟨f, hf, cs, h1, h2, h3⟩
      exact ⟨f, List.mem_cons_of_mem _ hf, cs, h1, h2, h3⟩
    | some gcs =>
      rw [hg] at h
      dsimp only at h
      by_cases h1 : duplicated gcs ≠ []
      · rw [if_pos h1] at h
        injection h with h
        refine ⟨g, List.mem_cons_self _ _, gcs, hg, Or.inl h1, ?_⟩
        rw [← h]
        exact namesStr_widen_right _ _ _ (namesStr_widen_right _ _ _
          (namesStr_widen_left _ _ _ (namesStr_self _)))
      · rw [if_neg h1] at h
        by_cases h2 : gcs.isEmpty = true
        · rw [if_pos h2] at h
          injection h with h
          refine ⟨g, List.mem_cons_self _ _, gcs, hg, Or.inr h2, ?_⟩
          rw [← h]
          exact namesStr_widen_right _ _ _
            (namesStr_widen_left _ _ _ (namesStr_self _))
        · rw [if_neg h2] at h
          rcases ih e h with ⟨f, hf, cs, ha, hb, hc⟩
          exact ⟨f, List.mem_cons_of_mem _ hf, cs, ha, hb, hc⟩

theorem checkCWD_error_names : ∀ (l : List FieldSpec) (ns : List String)
    (e : String), checkCWD ns l = .error e →
    ∃ f ∈ l, f.ChoicesWithData.isSome = true ∧ namesStr e (f.Name.getD "") := by
  intro l
  induction l with
  | nil =>
    intro ns e h
    cases h
  | cons g rest ih =>
    intro ns e h
    unfold checkCWD at h
    cases hg : g.ChoicesWithData with
    | none =>
      rw [hg] at h
      rcases ih ns e h with ⟨f, hf, h1, h2⟩
      exact ⟨f, List.mem_cons_of_mem _ hf, h1, h2⟩
    | some gc =>
      rw [hg] at h
      dsimp only at h
      by_cases h1 : ns.contains (g.Name.getD "" ++ "-value") = true
      · rw [if_pos h1] at h
        injection h with h
        refine ⟨g, List.mem_cons_self _ _, by rw [hg]; rfl, ?_⟩
        rw [← h]
        exact namesStr_widen_right _ _ _ (namesStr_widen_left _ _ _
          (namesStr_widen_right _ _ _ (namesStr_self _)))
      · rw [if_neg h1] at h
        by_cases h2 : duplicated (gc.pairs.map (fun p => p.1)) ≠ []
        · rw [if_pos h2] at h
          injection h with h
          refine ⟨g, List.mem_cons_self _ _, by rw [hg]; rfl, ?_⟩
          rw [← h]
          exact namesStr_widen_right _ _ _ (namesStr_widen_right _ _ _
            (namesStr_widen_left _ _ _ (namesStr_self _)))
        · rw [if_neg h2] at h
          by_cases h3 : gc.pairs.isEmpty = true
          · rw [if_pos h3] at h
            injection h with h
            refine ⟨g, List.mem_cons_self _ _, by rw [hg]; rfl, ?_⟩
            rw [← h]
            exact namesStr_widen_right _ _ _
              (namesStr_widen_left _ _ _ (namesStr_self _))
          · rw [if_neg h3] at h
            rcases ih ns e h with ⟨f, hf, ha, hb⟩
            exact ⟨f, List.mem_cons_of_mem _ hf, ha, hb⟩

theorem no_nameless_of_named {l : List FieldSpec}
    (hnamed : ∀ f ∈ l, f.Name.isSome = true) :
    ¬(l.any (fun f => f.Name.isNone) = true) := by
  intro hx
  rcases List.any_eq_true.mp hx with ⟨f, hf, hn⟩
  have h2 := hnamed f hf
  cases hN : f.Name with
  | none =>
    rw [hN] at h2
    simp at h2
  | some n =>
    rw [hN] at hn
    simp at hn

theorem init_error_of_fields_error {spec : TemplateSpec} {e : String}
    (h : _fields_from_template_spec spec.Fields = .error e) :
    MetadataTemplate.init spec = .error e := by
  unfold MetadataTemplate.init
  rw [h]

theorem fields_error_nameless {l : List FieldSpec}
    (h : ∃ f ∈ l, f.Name = none) :
    _fields_from_template_spec l
      = .error "One or more fields do not have a name" := by
  unfold _fields_from_template_spec
  rcases h with ⟨f, hf, hn⟩
  rw [if_pos (List.any_eq_true.mpr ⟨f, hf, by rw [hn]; rfl⟩)]

theorem fields_error_dup {l : List FieldSpec}
    (hnamed : ∀ f ∈ l, f.Name.isSome = true)
    (hdup : duplicated (l.filterMap (fun f => f.Name)) ≠ []) :
    _fields_from_template_spec l
      = .error ("Duplicated fields "
          ++ joinComma (sortStrings (duplicated (l.filterMap (fun f => f.Name))))) := by
  unfold _fields_from_template_spec
  rw [if_neg (no_nameless_of_named hnamed), if_pos hdup]

theorem fields_error_both {l : List FieldSpec} {f : FieldSpec}
    (hnamed : ∀ g ∈ l, g.Name.isSome = true)
    (hdup : duplicated (l.filterMap (fun g => g.Name)) = [])
    (hfind : l.find? (fun g => g.Choices.isSome && g.ChoicesWithData.isSome)
        = some f) :
    _fields_from_template_spec l
      = .error ("Both \"Choices\" and \"ChoicesWithData\" given for for ["
          ++ f.Name.getD "" ++ "]") := by
  unfold _fields_from_template_spec
  rw [if_neg (no_nameless_of_named hnamed),
    if_neg (fun hx => hx hdup), hfind]

theorem fields_error_choices {l : List FieldSpec} {e : String}
    (hnamed : ∀ g ∈ l, g.Name.isSome = true)
    (hdup : duplicated (l.filterMap (fun g => g.Name)) = [])
    (hfind : l.find? (fun g => g.Choices.isSome && g.ChoicesWithData.isSome)
        = none)
    (hcc : checkChoices l = .error e) :
    _fields_from_template_spec l = .error e := by
  unfold _fields_from_template_spec
  rw [if_neg (no_nameless_of_named hnamed),
    if_neg (fun hx => hx hdup), hfind, hcc]

theorem fields_error_cwd {l : List FieldSpec} {e : String}
    (hnamed : ∀ g ∈ l, g.Name.isSome = true)
    (hdup : duplicated (l.filterMap (fun g => g.Name)) = [])
    (hfind : l.find? (fun g => g.Choices.isSome && g.ChoicesWithData.isSome)
        = none)
    (hcc : checkChoices l = .ok ())
    (hcw : checkCWD (l.filterMap (fun g => g.Name)) l = .error e) :
    _fields_from_template_spec l = .error e := by
  unfold _fields_from_template_spec
  rw [if_neg (no_nameless_of_named hnamed),
    if_neg (fun hx => hx hdup), hfind, hcc, hcw]

/-- C6 (amended): every raw specification with a field missing a name,
duplicate field names, both vocabulary kinds on one field, or a
`Choices`/`ChoicesWithData` vocabulary that is empty or has duplicate labels
fails template construction with a definition error, and no template value is
produced.  The duplicate-names error lists every duplicated name, the
both-vocabularies error names the first offending field, and a vocabulary
error names an offending field in its message; but the field-without-name
error carries the fixed message "One or more fields do not have a name",
which identifies the violated invariant and names no field (the offending
field has no name to be named). -/
theorem init_definition_errors_amended (spec : TemplateSpec)
    (h : (∃ f ∈ spec.Fields, f.Name = none)
       ∨ ¬(spec.Fields.filterMap (fun f => f.Name)).Nodup
       ∨ (∃ f ∈ spec.Fields,
            f.Choices.isSome = true ∧ f.ChoicesWithData.isSome = true)
       ∨ (∃ f ∈ spec.Fields, ∃ cs, f.Choices = some cs
            ∧ (cs = [] ∨ ¬cs.Nodup))
       ∨ (∃ f ∈ spec.Fields, ∃ c, f.ChoicesWithData = some c
            ∧ (c.pairs = [] ∨ ¬(c.pairs.map (fun p => p.1)).Nodup))) :
    (∃ e, MetadataTemplate.init spec = .error e)
    ∧ ((∃ f ∈ spec.Fields, f.Name = none) →
        MetadataTemplate.init spec
          = .error "One or more fields do not have a name")
    ∧ ((∀ f ∈ spec.Fields, f.Name.isSome = true) →
        duplicated (spec.Fields.filterMap (fun f => f.Name)) ≠ [] →
        ∃ e, MetadataTemplate.init spec = .error e
          ∧ ∀ n ∈ duplicated (spec.Fields.filterMap (fun f => f.Name)),
              namesStr e n)
    ∧ (∀ f n, (∀ g ∈ spec.Fields, g.Name.isSome = true) →
        duplicated (spec.Fields.filterMap (fun g => g.Name)) = [] →
        spec.Fields.find?
            (fun g => g.Choices.isSome && g.ChoicesWithData.isSome) = some f →
        f.Name = some n →
        ∃ e, MetadataTemplate.init spec = .error e ∧ namesStr e n)
    ∧ ((∀ g ∈ spec.Fields, g.Name.isSome = true) →
        duplicated (spec.Fields.filterMap (fun g => g.Name)) = [] →
        spec.Fields.find?
            (fun g => g.Choices.isSome && g.ChoicesWithData.isSome) = none →
        (∃ f ∈ spec.Fields, ∃ cs, f.Choices = some cs
           ∧ (cs = [] ∨ duplicated cs ≠ [])) →
        ∃ e, MetadataTemplate.init spec = .error e
          ∧ ∃ f ∈ spec.Fields, ∃ n cs, f.Name = some n ∧ f.Choices = some cs
              ∧ namesStr e n)
    ∧ ((∀ g ∈ spec.Fields, g.Name.isSome = true) →
        duplicated (spec.Fields.filterMap (fun g => g.Name)) = [] →
        spec.Fields.find?
            (fun g => g.Choices.isSome && g.ChoicesWithData.isSome) = none →
        checkChoices spec.Fields = .ok () →
        (∃ f ∈ spec.Fields, ∃ c, f.ChoicesWithData = some c
           ∧ (c.pairs = [] ∨ duplicated (c.pairs.map (fun p => p.1)) ≠ [])) →
        ∃ e, MetadataTemplate.init spec = .error e
          ∧ ∃ f ∈ spec.Fields, ∃ n, f.Name = some n
              ∧ f.ChoicesWithData.isSome = true ∧ namesStr e n) := by
  refine ⟨init_fails_on_bad_spec spec h, ?_, ?_, ?_, ?_, ?_⟩
  · intro hnl
    exact init_error_of_fields_error (fields_error_nameless hnl)
  · intro hnamed hdup
    refine ⟨_, init_error_of_fields_error (fields_error_dup hnamed hdup), ?_⟩
    intro n hn
    apply namesStr_widen_left
    exact namesStr_joinComma _ n (mem_sortStrings n _ hn)
  · intro f n hnamed hdup hfind hfn
    refine ⟨_, init_error_of_fields_error (fields_error_both hnamed hdup hfind), ?_⟩
    rw [hfn]
    exact namesStr_widen_right _ _ _
      (namesStr_widen_left _ _ _ (namesStr_self _))
  · intro hnamed hdup hfind hoff
    cases hcc : checkChoices spec.Fields with
    | ok u =>
      exfalso
      cases u
      rcases hoff with ⟨f, hf, cs, hcs, hbad⟩
      rcases checkChoices_ok spec.Fields hcc f hf cs hcs with ⟨hd, hne⟩
      rcases hbad with rfl | hd'
      · exact hne rfl
      · exact hd' hd
    | error e =>
      refine ⟨e, init_error_of_fields_error
        (fields_error_choices hnamed hdup hfind hcc), ?_⟩
      rcases checkChoices_error_names spec.Fields e hcc with
        ⟨f, hf, cs, hcs, _, hnames⟩
      have hsome := hnamed f hf
      rcases Option.isSome_iff_exists.mp hsome with ⟨n, hn⟩
      refine ⟨f, hf, n, cs, hn, hcs, ?_⟩
      rw [hn] at hnames
      exact hnames
  · intro hnamed hdup hfind hcc hoff
    cases hcw : checkCWD (spec.Fields.filterMap (fun g => g.Name)) spec.Fields with
    | ok u =>
      exfalso
      cases u
      rcases hoff with ⟨f, hf, c, hc, hbad⟩
      rcases checkCWD_ok spec.Fields _ hcw f hf c hc with ⟨hd, hne⟩
      rcases hbad with he | hd'
      · exact hne he
      · exact hd' hd
    | error e =>
      refine ⟨e, init_error_of_fields_error
        (fields_error_cwd hnamed hdup hfind hcc hcw), ?_⟩
      rcases checkCWD_error_names spec.Fields _ e hcw with ⟨f, hf, hc, hnames⟩
      have hsome := hnamed f hf
      rcases Option.isSome_iff_exists.mp hsome with ⟨n, hn⟩
      refine ⟨f, hf, n, hn, hc, ?_⟩
      rw [hn] at hnames
      exact hnames

/-- Witness for the amended C6 theorem: a duplicate-name spec whose error
message names the duplicated field, and a nameless-field spec that fails with
the fixed invariant message. -/
theorem init_definition_errors_amended_witness :
    (∃ e, MetadataTemplate.init specDup = .error e
       ∧ ∀ n ∈ duplicated (specDup.Fields.filterMap (fun f => f.Name)),
           namesStr e n)
    ∧ MetadataTemplate.init specBad
        = .error "One or more fields do not have a name" :=
  ⟨(init_definition_errors_amended specDup
      (Or.inr (Or.inl (by decide)))).2.2.1 (by decide) (by decide),
   (init_definition_errors_amended specBad
      (Or.inl (by decide))).2.1 (by decide)⟩

/-- C6 counterexample: the spec `specNoName` is in the claim's scope (it has a
field without a name); construction fails — with the fixed message "One or
more fields do not have a name", which names no field of the spec: the claim's
"definition error naming the offending field(s)" does not hold at this input,
the offending field having no name that a message could carry. -/
theorem init_error_nameless_counterexample :
    (∃ f ∈ specNoName.Fields, f.Name = none)
    ∧ MetadataTemplate.init specNoName
        = .error "One or more fields do not have a name"
    ∧ (∀ f ∈ specNoName.Fields, f.Name.isSome = true →
        ¬ namesStr "One or more fields do not have a name" (f.Name.getD "")) :=
  ⟨by decide, rfl, by decide⟩

/-- C9: template construction mutates the caller's raw specification in
place — when field validation passes, the caller's field specs are left in
their processed form (every `ChoicesWithData` list replaced by the
ordered-mapping representation), and the mutation persists even when
construction subsequently fails because the spec's `Name` is empty. -/
theorem init_mutates_spec_fields (spec : TemplateSpec) (fs : List FieldSpec)
    (h : _fields_from_template_spec spec.Fields = .ok fs) :
    spec_fields_after_init spec = spec.Fields.map convertCWD
    ∧ (∀ i f ps, spec.Fields.get? i = some f →
        f.ChoicesWithData = some (CWDRep.asList ps) →
        ((spec_fields_after_init spec).get? i).map (fun g => g.ChoicesWithData)
          = some (some (CWDRep.asDict ps)))
    ∧ (spec.Name = "" → MetadataTemplate.init spec = .error "No template name") := by
  have hmap := (fields_from_template_spec_ok h).1
  have hafter : spec_fields_after_init spec = fs := by
    unfold spec_fields_after_init
    rw [h]
  refine ⟨hafter.trans hmap, ?_, ?_⟩
  · intro i f ps hi hf
    rw [hafter, hmap]
    rw [List.get?_map, hi]
    simp only [Option.map_some']
    unfold convertCWD
    rw [hf]
    rfl
  · intro hname
    unfold MetadataTemplate.init
    rw [h]
    dsimp only
    rw [if_pos hname]

/-- Witness for the C9 theorem: a spec with a valid `ChoicesWithData` field
and an empty name — the caller's field list is mutated although construction
fails. -/
theorem init_mutates_spec_fields_witness :
    spec_fields_after_init specMut = specMut.Fields.map convertCWD
    ∧ MetadataTemplate.init specMut = .error "No template name" := by
  have h := init_mutates_spec_fields specMut (specMut.Fields.map convertCWD) (by rfl)
  exact ⟨h.1, h.2.2 rfl⟩

theorem sublist_append_middle {α : Type} {l m : List α} (pre post : List α)
    (h : l.Sublist m) : l.Sublist (pre ++ m ++ post) := by
  rw [List.append_assoc]
  exact h.trans ((List.sublist_append_left m post).trans
    (List.sublist_append_right pre _))

theorem fields_mapping_mem {t : MetadataTemplate} {p : String × FieldSpec}
    (h : p ∈ t.fields_mapping) :
    p.2 ∈ t._fields ∧ p.2.Name = some p.1 := by
  have h' := mem_pyDict h
  rcases List.mem_filterMap.mp h' with ⟨f, hf, hsome⟩
  rcases Option.map_eq_some'.mp hsome with ⟨n, hn, hq⟩
  rw [← hq]
  exact ⟨hf, hn⟩

theorem parse_for_declared {t : MetadataTemplate} {A : String}
    {pA : String → Bool} (h : t.parse_for A = some pA) :
    ∃ g ∈ t._fields, g.Name = some A := by
  have hmem := dictGet_eq_some_of_mem h
  unfold MetadataTemplate.parse_mapping at hmem
  rcases List.mem_filterMap.mp hmem with ⟨q, hq, hsome⟩
  rcases Option.map_eq_some'.mp hsome with ⟨pr, _, hpr⟩
  have hfact := fields_mapping_mem hq
  refine ⟨q.2, hfact.1, ?_⟩
  rw [hfact.2]
  have : q.1 = A := congrArg Prod.fst hpr
  rw [this]

theorem visit_boxes_events_decomp (t : MetadataTemplate) (po : List String) :
    ∀ (doc : List Box) (k i : Nat) (b : Box), doc.get? i = some b →
      ∃ pre post, t.visit_boxes_events po k doc
        = pre ++ t.visit_box_events po (k + i) b ++ post := by
  intro doc
  induction doc with
  | nil =>
    intro k i b h
    cases h
  | cons c rest ih =>
    intro k i b h
    cases i with
    | zero =>
      injection h with h
      subst h
      refine ⟨[], t.visit_boxes_events po (k + 1) rest, ?_⟩
      rw [Nat.add_zero, List.nil_append]
      rfl
    | succ j =>
      rcases ih (k + 1) j b h with ⟨pre, post, hd⟩
      refine ⟨t.visit_box_events po k c ++ pre, post, ?_⟩
      have hk : k + 1 + j = k + (j + 1) := by omega
      rw [hk] at hd
      show t.visit_box_events po k c ++ t.visit_boxes_events po (k + 1) rest
        = (t.visit_box_events po k c ++ pre) ++ t.visit_box_events po (k + (j + 1)) b ++ post
      rw [hd]
      simp [List.append_assoc]

/-- C3 (amended): during `validate_document`, for each record the
`missing_mandatory` events follow the template's declared field order; the
`failed_parse` events follow the iteration order of the parse mapping (the
explicit `parseOrder` parameter — Python leaves a dict's iteration order
unspecified), which is not guaranteed to be the declared field order. -/
theorem visit_box_event_order_amended (t : MetadataTemplate) (hwf : t.wf)
    (po co : List String) (doc : List Box) (i : Nat) (b : Box)
    (hb : doc.get? i = some b) (A B : String) :
    (∀ fA fB, [fA, fB].Sublist t._fields →
      fA.Name = some A → fB.Name = some B →
      fA.Mandatory = true → fB.Mandatory = true →
      falsy (dictGet b.fields A) = true → falsy (dictGet b.fields B) = true →
      [VisitEvent.missing_mandatory i (t.format_label b) A,
       VisitEvent.missing_mandatory i (t.format_label b) B].Sublist
        (t.visit_document_events po co doc))
    ∧ (∀ pA pB vA vB, [A, B].Sublist po →
        t.parse_for A = some pA → t.parse_for B = some pB →
        dictGet b.fields A = some vA → dictGet b.fields B = some vB →
        pA vA = false → pB vB = false →
        [VisitEvent.failed_parse i (t.format_label b) A,
         VisitEvent.failed_parse i (t.format_label b) B].Sublist
          (t.visit_document_events po co doc)) := by
  rcases visit_boxes_events_decomp t po doc 0 i b hb with ⟨pre, post, hdec⟩
  rw [Nat.zero_add] at hdec
  have hassemble : ∀ l : List VisitEvent,
      l.Sublist (t.visit_box_events po i b) →
      l.Sublist (t.visit_document_events po co doc) := by
    intro l hl
    have h1 := sublist_append_middle ([VisitEvent.begin_visit] ++ pre)
      (post ++ t.visit_labels_events co (t.boxes_after_visit doc)
        ++ [VisitEvent.end_visit]) hl
    unfold MetadataTemplate.visit_document_events
    rw [hdec]
    simpa [List.append_assoc] using h1
  constructor
  · intro fA fB hsub hAn hBn hAm hBm hfA hfB
    have hstA : dictGet (t.box_metadata b) A = dictGet b.fields A :=
      box_metadata_declared_stable t hwf b
        ⟨fA, hsub.subset (List.mem_cons_self _ _), hAn⟩
    have hstB : dictGet (t.box_metadata b) B = dictGet b.fields B :=
      box_metadata_declared_stable t hwf b
        ⟨fB, hsub.subset (List.mem_cons_of_mem _ (List.mem_cons_self _ _)), hBn⟩
    have hmand : [A, B].Sublist t.mandatory := by
      have h1 : [fA, fB].filter (fun f => f.Mandatory) = [fA, fB] := by
        simp [List.filter_cons, hAm, hBm]
      have h2 := hsub.filter (fun f => f.Mandatory)
      rw [h1] at h2
      have h3 := h2.filterMap (fun f => f.Name)
      rw [show List.filterMap (fun f => f.Name) [fA, fB] = [A, B] by
        simp [List.filterMap_cons, hAn, hBn]] at h3
      exact h3
    apply hassemble
    have h4 : [A, B].filter
        (fun f => falsy (dictGet (t.box_metadata b) f)) = [A, B] := by
      simp [List.filter_cons, hstA, hstB, hfA, hfB]
    have h5 := hmand.filter (fun f => falsy (dictGet (t.box_metadata b) f))
    rw [h4] at h5
    have h6 := h5.map
      (fun f => VisitEvent.missing_mandatory i (t.format_label b) f)
    simp only [List.map_cons, List.map_nil] at h6
    exact h6.trans (List.sublist_append_left _ _)
  · intro pA pB vA vB hsubpo hpA hpB hvA hvB hfailA hfailB
    have hstA : dictGet (t.box_metadata b) A = dictGet b.fields A := by
      rcases parse_for_declared hpA with ⟨g, hg, hgA⟩
      exact box_metadata_declared_stable t hwf b ⟨g, hg, hgA⟩
    have hstB : dictGet (t.box_metadata b) B = dictGet b.fields B := by
      rcases parse_for_declared hpB with ⟨g, hg, hgB⟩
      exact box_metadata_declared_stable t hwf b ⟨g, hg, hgB⟩
    apply hassemble
    have h4 : [A, B].filterMap (fun k =>
        match t.parse_for k, dictGet (t.box_metadata b) k with
        | some parse, some v =>
          if parse v then none
          else some (VisitEvent.failed_parse i (t.format_label b) k)
        | _, _ => none)
        = [VisitEvent.failed_parse i (t.format_label b) A,
           VisitEvent.failed_parse i (t.format_label b) B] := by
      rw [List.filterMap_cons, List.filterMap_cons, List.filterMap_nil]
      rw [hpA, hpB, hstA, hstB, hvA, hvB]
      simp [hfailA, hfailB]
    have h5 := hsubpo.filterMap (fun k =>
      match t.parse_for k, dictGet (t.box_metadata b) k with
      | some parse, some v =>
        if parse v then none
        else some (VisitEvent.failed_parse i (t.format_label b) k)
      | _, _ => none)
    rw [h4] at h5
    exact h5.trans (List.sublist_append_right _ _)

/-- Witness for the C3 amended theorem: on concrete templates, a record with
two missing mandatory fields gets its events in declared order, and a record
with two failing parser fields gets its events in the parse-mapping iteration
order. -/
theorem visit_box_event_order_amended_witness :
    [VisitEvent.missing_mandatory 0 (tMand.format_label bEmpty) "MA",
     VisitEvent.missing_mandatory 0 (tMand.format_label bEmpty) "MB"].Sublist
      (tMand.visit_document_events [] [""] [bEmpty])
    ∧ [VisitEvent.failed_parse 0 (tOrd.format_label bOrd) "A",
       VisitEvent.failed_parse 0 (tOrd.format_label bOrd) "B"].Sublist
        (tOrd.visit_document_events ["A", "B"] [""] [bOrd]) :=
  ⟨(visit_box_event_order_amended tMand (by decide) [] [""] [bEmpty] 0 bEmpty
      rfl "MA" "MB").1 fManA fManB (List.Sublist.refl _) rfl rfl rfl rfl
      (by decide) (by decide),
   (visit_box_event_order_amended tOrd (by decide) ["A", "B"] [""] [bOrd] 0 bOrd
      rfl "A" "B").2 parseNever parseNever "x" "y" (List.Sublist.refl _)
      rfl rfl (by decide) (by decide) rfl rfl⟩

/-- C3 counterexample: with template `tOrd` declaring `A` before `B` (both
with parsers, both present in the record, both failing) and the parse dict
iterating as `["B", "A"]` — a legal iteration order, being a permutation of
the parse mapping's keys — the traversal reports `failed_parse` for `B` before
`A` and never `A` before `B`: the declared-field-order contract for
`failed_parse` does not hold. -/
theorem visit_failed_parse_order_counterexample :
    IsParseOrder tOrd ["B", "A"]
    ∧ [fFailA, fFailB].Sublist tOrd._fields
    ∧ fFailA.Name = some "A" ∧ fFailB.Name = some "B"
    ∧ tOrd.parse_for "A" = some parseNever
    ∧ tOrd.parse_for "B" = some parseNever
    ∧ dictGet bOrd.fields "A" = some "x"
    ∧ dictGet bOrd.fields "B" = some "y"
    ∧ parseNever "x" = false ∧ parseNever "y" = false
    ∧ tOrd.visit_document_events ["B", "A"] [""] [bOrd]
      = [VisitEvent.begin_visit,
         VisitEvent.failed_parse 0 "" "B", VisitEvent.failed_parse 0 "" "A",
         VisitEvent.missing_label 0, VisitEvent.end_visit]
    ∧ ¬ ([VisitEvent.failed_parse 0 (tOrd.format_label bOrd) "A",
          VisitEvent.failed_parse 0 (tOrd.format_label bOrd) "B"].Sublist
           (tOrd.visit_document_events ["B", "A"] [""] [bOrd])) :=
  ⟨by decide, List.Sublist.refl _, rfl, rfl, rfl, rfl, by decide, by decide,
   rfl, rfl, by decide, by decide⟩

theorem formatDefaultGo_congr {md₁ md₂ : List (String × String)}
    (h : ∀ k, dictGet md₁ k = dictGet md₂ k) :
    ∀ (fuel : Nat) (cs : List Char),
      formatDefaultGo md₁ fuel cs = formatDefaultGo md₂ fuel cs := by
  intro fuel
  induction fuel with
  | zero =>
    intro cs
    rfl
  | succ n ih =>
    intro cs
    cases cs with
    | nil => rfl
    | cons c rest =>
      unfold formatDefaultGo
      by_cases hc : c = '\x7b'
      · rw [if_pos hc, if_pos hc]
        dsimp only
        rw [h, ih]
      · rw [if_neg hc, if_neg hc, ih]

theorem format_label_congr (t : MetadataTemplate) {md₁ md₂ : List (String × String)}
    (h : ∀ k, dictGet md₁ k = dictGet md₂ k) :
    formatDefault t._object_label md₁ = formatDefault t._object_label md₂ := by
  unfold formatDefault
  rw [formatDefaultGo_congr h]

/-- The `format_label` of a box already mutated by `box_metadata` is the
original box's label (labels are computed from lookup-equal mappings). -/
theorem format_label_after (t : MetadataTemplate) (hwf : t.wf) (b : Box) :
    t.format_label (box_after_box_metadata t b) = t.format_label b := by
  unfold MetadataTemplate.format_label
  exact format_label_congr t (fun k => box_metadata_idem t hwf b k)

theorem boxes_after_labels (t : MetadataTemplate) (hwf : t.wf) (doc : List Box) :
    (t.boxes_after_visit doc).map t.format_label = doc.map t.format_label := by
  unfold MetadataTemplate.boxes_after_visit
  rw [List.map_map]
  apply List.map_congr_left
  intro b _
  exact format_label_after t hwf b

theorem count_singleton_ne {e e' : VisitEvent} (h : e ≠ e') :
    List.count e [e'] = 0 := by
  rw [List.count_eq_zero]
  intro hmem
  rw [List.mem_singleton] at hmem
  exact h hmem

theorem count_missingLabelEvents : ∀ (ls : List String) (k i : Nat),
    (missingLabelEvents k ls).count (VisitEvent.missing_label i)
      = if k ≤ i ∧ ls.get? (i - k) = some "" then 1 else 0 := by
  intro ls
  induction ls with
  | nil =>
    intro k i
    have h0 : ¬(k ≤ i ∧ ([] : List String).get? (i - k) = some "") :=
      fun hx => by cases hx.2
    rw [if_neg h0]
    rfl
  | cons l rest ih =>
    intro k i
    unfold missingLabelEvents
    rw [List.count_append, ih (k + 1) i]
    have hfirst : (if l = "" then [VisitEvent.missing_label k] else []).count
        (VisitEvent.missing_label i) = if l = "" ∧ i = k then 1 else 0 := by
      by_cases hl : l = ""
      · subst hl
        by_cases hik : i = k
        · subst hik
          have h1 : ("" : String) = "" ∧ i = i := ⟨rfl, rfl⟩
          rw [if_pos rfl, if_pos h1]
          simp [List.count_cons]
        · have h1 : ¬(("" : String) = "" ∧ i = k) := fun hx => hik hx.2
          rw [if_pos rfl, if_neg h1]
          exact count_singleton_ne (fun hx => by injection hx with hx; exact hik hx)
      · have h1 : ¬(l = "" ∧ i = k) := fun hx => hl hx.1
        rw [if_neg hl, if_neg h1]
        rfl
    rw [hfirst]
    by_cases hik : i = k
    · subst hik
      have h2 : ¬(i + 1 ≤ i ∧ rest.get? (i - (i + 1)) = some "") :=
        fun hx => absurd hx.1 (by omega)
      rw [if_neg h2]
      by_cases hl : l = ""
      · subst hl
        have h3 : (("" : String) = "" ∧ i = i) := ⟨rfl, rfl⟩
        have h4 : i ≤ i ∧ (("" : String) :: rest).get? (i - i) = some "" :=
          ⟨Nat.le_refl i, by rw [Nat.sub_self, List.get?_cons_zero]⟩
        rw [if_pos h3, if_pos h4]
      · have h3 : ¬(l = "" ∧ i = i) := fun hx => hl hx.1
        have h4 : ¬(i ≤ i ∧ (l :: rest).get? (i - i) = some "") := by
          intro hx
          have h5 := hx.2
          rw [Nat.sub_self, List.get?_cons_zero] at h5
          injection h5 with h5
          exact hl h5
        rw [if_neg h3, if_neg h4]
    · have h2 : ¬(l = "" ∧ i = k) := fun hx => hik hx.2
      rw [if_neg h2, Nat.zero_add]
      by_cases hki : k ≤ i
      · have hget : (l :: rest).get? (i - k) = rest.get? (i - (k + 1)) := by
          have h3 : i - k = (i - (k + 1)) + 1 := by omega
          rw [h3, List.get?_cons_succ]
        by_cases hr : rest.get? (i - (k + 1)) = some ""
        · have h3 : k + 1 ≤ i ∧ rest.get? (i - (k + 1)) = some "" := ⟨by omega, hr⟩
          have h4 : k ≤ i ∧ (l :: rest).get? (i - k) = some "" :=
            ⟨hki, by rw [hget]; exact hr⟩
          rw [if_pos h3, if_pos h4]
        · have h3 : ¬(k + 1 ≤ i ∧ rest.get? (i - (k + 1)) = some "") :=
            fun hx => hr hx.2
          have h4 : ¬(k ≤ i ∧ (l :: rest).get? (i - k) = some "") := by
            intro hx
            apply hr
            rw [← hget]
            exact hx.2
          rw [if_neg h3, if_neg h4]
      · have h3 : ¬(k + 1 ≤ i ∧ rest.get? (i - (k + 1)) = some "") :=
          fun hx => hki (by omega)
        have h4 : ¬(k ≤ i ∧ (l :: rest).get? (i - k) = some "") :=
          fun hx => hki hx.1
        rw [if_neg h3, if_neg h4]

theorem count_duplicatedLabelEvents (labels : List String) :
    ∀ (co : List String), co.Nodup →
    ∀ L, (duplicatedLabelEvents co labels).count (VisitEvent.duplicated_labels L)
      = if L ∈ co ∧ L ≠ "" ∧ 1 < labels.count L then 1 else 0 := by
  intro co
  induction co with
  | nil =>
    intro _ L
    have h0 : ¬(L ∈ ([] : List String) ∧ L ≠ "" ∧ 1 < labels.count L) :=
      fun hx => by cases hx.1
    rw [if_neg h0]
    rfl
  | cons x rest ih =>
    intro hnd L
    rcases List.nodup_cons.mp hnd with ⟨hx, hnd'⟩
    unfold duplicatedLabelEvents
    rw [List.filterMap_cons]
    have ihL := ih hnd' L
    unfold duplicatedLabelEvents at ihL
    by_cases hcond : x ≠ "" ∧ 1 < labels.count x
    · rw [if_pos hcond, List.count_cons, ihL]
      by_cases hLx : L = x
      · subst hLx
        have h1 : ¬(L ∈ rest ∧ L ≠ "" ∧ 1 < labels.count L) := fun hy => hx hy.1
        have h2 : L ∈ L :: rest ∧ L ≠ "" ∧ 1 < labels.count L :=
          ⟨List.mem_cons_self _ _, hcond⟩
        have h3 : (VisitEvent.duplicated_labels L
            == VisitEvent.duplicated_labels L) = true := by simp
        rw [if_neg h1, if_pos h2, if_pos h3]
      · have h3 : ¬((VisitEvent.duplicated_labels x
            == VisitEvent.duplicated_labels L) = true) := by
          simp only [beq_iff_eq]
          intro hy
          injection hy with hy
          exact hLx hy.symm
        rw [if_neg h3, Nat.add_zero]
        by_cases hmem : L ∈ rest ∧ L ≠ "" ∧ 1 < labels.count L
        · have h4 : L ∈ x :: rest ∧ L ≠ "" ∧ 1 < labels.count L :=
            ⟨List.mem_cons_of_mem _ hmem.1, hmem.2⟩
          rw [if_pos hmem, if_pos h4]
        · have h4 : ¬(L ∈ x :: rest ∧ L ≠ "" ∧ 1 < labels.count L) := by
            intro hy
            apply hmem
            refine ⟨?_, hy.2⟩
            rcases List.mem_cons.mp hy.1 with h5 | h5
            · exact absurd h5 hLx
            · exact h5
          rw [if_neg hmem, if_neg h4]
    · rw [if_neg hcond, ihL]
      by_cases hLx : L = x
      · subst hLx
        have h1 : ¬(L ∈ rest ∧ L ≠ "" ∧ 1 < labels.count L) := fun hy => hx hy.1
        have h2 : ¬(L ∈ L :: rest ∧ L ≠ "" ∧ 1 < labels.count L) :=
          fun hy => hcond hy.2
        rw [if_neg h1, if_neg h2]
      · by_cases hmem : L ∈ rest ∧ L ≠ "" ∧ 1 < labels.count L
        · have h4 : L ∈ x :: rest ∧ L ≠ "" ∧ 1 < labels.count L :=
            ⟨List.mem_cons_of_mem _ hmem.1, hmem.2⟩
          rw [if_pos hmem, if_pos h4]
        · have h4 : ¬(L ∈ x :: rest ∧ L ≠ "" ∧ 1 < labels.count L) := by
            intro hy
            apply hmem
            refine ⟨?_, hy.2⟩
            rcases List.mem_cons.mp hy.1 with h5 | h5
            · exact absurd h5 hLx
            · exact h5
          rw [if_neg hmem, if_neg h4]

theorem visit_box_events_shape (t : MetadataTemplate) (po : List String)
    (i : Nat) (b : Box) :
    ∀ e ∈ t.visit_box_events po i b,
      (∃ l f, e = VisitEvent.missing_mandatory i l f)
      ∨ (∃ l f, e = VisitEvent.failed_parse i l f) := by
  intro e he
  unfold MetadataTemplate.visit_box_events at he
  rcases List.mem_append.mp he with h | h
  · rcases List.mem_map.mp h with ⟨f, _, hf⟩
    exact Or.inl ⟨_, f, hf.symm⟩
  · rcases List.mem_filterMap.mp h with ⟨k, _, hk⟩
    split at hk
    · split at hk
      · cases hk
      · injection hk with hk
        exact Or.inr ⟨_, k, hk.symm⟩
    · cases hk

theorem visit_boxes_count_ml (t : MetadataTemplate) (po : List String) :
    ∀ (doc : List Box) (k i : Nat),
      (t.visit_boxes_events po k doc).count (VisitEvent.missing_label i) = 0 := by
  intro doc
  induction doc with
  | nil =>
    intro k i
    rfl
  | cons c rest ih =>
    intro k i
    show (t.visit_box_events po k c
      ++ t.visit_boxes_events po (k + 1) rest).count (VisitEvent.missing_label i) = 0
    rw [List.count_append, ih (k + 1) i]
    have h0 : (t.visit_box_events po k c).count (VisitEvent.missing_label i) = 0 := by
      rw [List.count_eq_zero]
      intro hmem
      rcases visit_box_events_shape t po k c _ hmem with ⟨l, f, h⟩ | ⟨l, f, h⟩ <;> cases h
    rw [h0]

theorem visit_boxes_count_dl (t : MetadataTemplate) (po : List String) :
    ∀ (doc : List Box) (k : Nat) (L : String),
      (t.visit_boxes_events po k doc).count (VisitEvent.duplicated_labels L) = 0 := by
  intro doc
  induction doc with
  | nil =>
    intro k L
    rfl
  | cons c rest ih =>
    intro k L
    show (t.visit_box_events po k c
      ++ t.visit_boxes_events po (k + 1) rest).count (VisitEvent.duplicated_labels L) = 0
    rw [List.count_append, ih (k + 1) L]
    have h0 : (t.visit_box_events po k c).count (VisitEvent.duplicated_labels L) = 0 := by
      rw [List.count_eq_zero]
      intro hmem
      rcases visit_box_events_shape t po k c _ hmem with ⟨l, f, h⟩ | ⟨l, f, h⟩ <;> cases h
    rw [h0]

theorem missingLabelEvents_count_dl : ∀ (ls : List String) (k : Nat) (L : String),
    (missingLabelEvents k ls).count (VisitEvent.duplicated_labels L) = 0 := by
  intro ls
  induction ls with
  | nil =>
    intro k L
    rfl
  | cons l rest ih =>
    intro k L
    unfold missingLabelEvents
    rw [List.count_append, ih (k + 1) L]
    have h0 : (if l = "" then [VisitEvent.missing_label k] else []).count
        (VisitEvent.duplicated_labels L) = 0 := by
      by_cases hl : l = ""
      · rw [if_pos hl, List.count_eq_zero]
        intro hmem
        rw [List.mem_singleton] at hmem
        cases hmem
      · rw [if_neg hl]
        rfl
    rw [h0]

theorem duplicatedLabelEvents_count_ml (co labels : List String) (i : Nat) :
    (duplicatedLabelEvents co labels).count (VisitEvent.missing_label i) = 0 := by
  rw [List.count_eq_zero]
  intro hmem
  unfold duplicatedLabelEvents at hmem
  rcases List.mem_filterMap.mp hmem with ⟨l, _, hl⟩
  split at hl
  · cases hl
  · cases hl

/-- C5: during one `validate_document` traversal, `missing_label(index)` is
reported exactly once for each record whose formatted label is empty;
`duplicated_labels` never fires for the empty label; and among the non-empty
labels, `duplicated_labels(label)` is reported exactly once per distinct label
value occurring more than once — not once per occurrence. -/
theorem visit_labels_counts (t : MetadataTemplate) (hwf : t.wf)
    (po co : List String) (doc : List Box)
    (hco : IsCounterOrder co (doc.map t.format_label)) :
    (∀ i b, doc.get? i = some b →
        (t.visit_document_events po co doc).count (VisitEvent.missing_label i)
          = if t.format_label b = "" then 1 else 0)
    ∧ (∀ L, L ≠ "" →
        (t.visit_document_events po co doc).count (VisitEvent.duplicated_labels L)
          = if 1 < (doc.map t.format_label).count L then 1 else 0)
    ∧ (t.visit_document_events po co doc).count
        (VisitEvent.duplicated_labels "") = 0 := by
  have hlabels := boxes_after_labels t hwf doc
  have hconodup : co.Nodup :=
    (List.Perm.nodup_iff hco).mpr (List.nodup_dedup _)
  have hsplit : ∀ e : VisitEvent,
      (t.visit_document_events po co doc).count e
        = List.count e [VisitEvent.begin_visit]
          + (t.visit_boxes_events po 0 doc).count e
          + ((missingLabelEvents 0 (doc.map t.format_label)).count e
             + (duplicatedLabelEvents co (doc.map t.format_label)).count e)
          + List.count e [VisitEvent.end_visit] := by
    intro e
    unfold MetadataTemplate.visit_document_events
    unfold MetadataTemplate.visit_labels_events
    rw [hlabels]
    rw [List.count_append, List.count_append, List.count_append,
      List.count_append]
  refine ⟨?_, ?_, ?_⟩
  · intro i b hb
    rw [hsplit]
    rw [count_singleton_ne (by intro h; cases h),
      count_singleton_ne (by intro h; cases h),
      visit_boxes_count_ml, duplicatedLabelEvents_count_ml,
      count_missingLabelEvents]
    have hget : (doc.map t.format_label).get? (i - 0) = some (t.format_label b) := by
      rw [Nat.sub_zero, List.get?_map, hb]
      rfl
    rw [hget]
    by_cases hlab : t.format_label b = ""
    · rw [if_pos ⟨Nat.zero_le i, by rw [hlab]⟩, if_pos hlab]
    · have h4 : ¬(0 ≤ i ∧ some (t.format_label b) = some "") := by
        intro hx
        have h5 := hx.2
        injection h5 with h5
        exact hlab h5
      rw [if_neg h4, if_neg hlab]
  · intro L hL
    rw [hsplit]
    rw [count_singleton_ne (by intro h; cases h),
      count_singleton_ne (by intro h; cases h),
      visit_boxes_count_dl, missingLabelEvents_count_dl,
      count_duplicatedLabelEvents _ _ hconodup]
    by_cases hc : 1 < (doc.map t.format_label).count L
    · have hmeml : L ∈ doc.map t.format_label := by
        by_contra hx
        rw [← List.count_eq_zero] at hx
        omega
      have hmemco : L ∈ co :=
        (List.Perm.mem_iff hco).mpr (List.mem_dedup.mpr hmeml)
      rw [if_pos ⟨hmemco, hL, hc⟩, if_pos hc]
    · rw [if_neg (fun hx => hc hx.2.2), if_neg hc]
  · rw [hsplit]
    rw [count_singleton_ne (by intro h; cases h),
      count_singleton_ne (by intro h; cases h),
      visit_boxes_count_dl, missingLabelEvents_count_dl,
      count_duplicatedLabelEvents _ _ hconodup]
    rw [if_neg (fun hx => hx.2.1 rfl)]

/-- Witness for the C5 theorem: a document with one empty-label record and two
records sharing the label `X123`. -/
theorem visit_labels_counts_witness :
    ((tB.visit_document_events [] ["", "X123"] [bB, bX, bX]).count
        (VisitEvent.missing_label 0)
      = if tB.format_label bB = "" then 1 else 0)
    ∧ ((tB.visit_document_events [] ["", "X123"] [bB, bX, bX]).count
        (VisitEvent.duplicated_labels "X123")
      = if 1 < ([bB, bX, bX].map tB.format_label).count "X123" then 1 else 0)
    ∧ (tB.visit_document_events [] ["", "X123"] [bB, bX, bX]).count
        (VisitEvent.duplicated_labels "") = 0 :=
  ⟨(visit_labels_counts tB (by decide) [] ["", "X123"] [bB, bX, bX]
      (by decide)).1 0 bB rfl,
   (visit_labels_counts tB (by decide) [] ["", "X123"] [bB, bX, bX]
      (by decide)).2.1 "X123" (by decide),
   (visit_labels_counts tB (by decide) [] ["", "X123"] [bB, bX, bX]
      (by decide)).2.2⟩

end Inselect


